import Mathlib

/-!
# Session manager (`session.go`): shallow embedding and verified properties

The Go package keeps an identifier → session registry in a `MemStorage`
(a `map[string]interface{}` behind locks), gives every session a private
`MemStorage`, and sweeps expired sessions in `GC`.

Embedding conventions:

* Go maps and `*Conversation` values are references, so the program state is
  an explicit heap (`Heap`) holding the allocated maps and the allocated
  `Conversation` records; a reference is `some index`, the nil map and the nil
  pointer are `none`.  Allocation appends, so a new reference is always fresh.
* A run-time panic (write to a nil map, failed type assertion, nil pointer
  dereference) is the result `none`.
* The locks are not modelled: every operation is executed sequentially.
* `time.Time` is an integer count of nanoseconds, `time.Duration` an `int64`
  count of nanoseconds; `int64` arithmetic wraps modulo `2^64`.
* `time.Now()`, the request cookies, the identifier generator and the
  response writer are inputs and outputs of the functions that use them.
-/

namespace Session

/-! ## Values, maps and the heap -/

/-- Dynamic values of type `interface{}`: the nil interface, a `*Conversation`
(whose pointer may itself be nil), or some other dynamic type. -/
inductive Value where
  | nil : Value
  | conv : Option Nat → Value
  | str : String → Value
  | int : Int → Value
  deriving DecidableEq, Repr

/-- Contents of a `map[string]interface{}`: its entries, in iteration order. -/
abbrev GoMap := List (String × Value)

/-- The comma-ok lookup `v, ok := m[k]`: `some v` when `k` has an entry. -/
def mapGet : GoMap → String → Option Value
  | [], _ => none
  | (k', v) :: rest, k => if k' = k then some v else mapGet rest k

/-- The plain index expression `m[k]`: the zero value (nil) when `k` is absent. -/
def mapIndex (m : GoMap) (k : String) : Value :=
  match mapGet m k with
  | some v => v
  | none => Value.nil

/-- The builtin `delete(m, k)`. -/
def mapDelete (m : GoMap) (k : String) : GoMap :=
  m.filter (fun e => decide (e.1 ≠ k))

/-- The assignment `m[k] = v`: the entry for `k` is inserted or replaced. -/
def mapSet (m : GoMap) (k : String) (v : Value) : GoMap :=
  (k, v) :: mapDelete m k

/-- The keys of a map, in iteration order. -/
def mapKeys (m : GoMap) : List String := m.map Prod.fst

/-- Type `MemStorage`: the map reference `DataStorage` (`none` is the nil map);
the two lock fields carry no data. -/
structure MemStorage where
  DataStorage : Option Nat
  deriving DecidableEq, Repr

/-- Type `Conversation`. -/
structure Conversation where
  LastAccessTime : Int
  Cid : String
  CSData : MemStorage
  MaxAge : Int
  deriving DecidableEq, Repr

/-- Type `ConversationManager`. -/
structure ConversationManager where
  CookieName : String
  MaxAge : Int
  Storage : MemStorage
  deriving DecidableEq, Repr

/-- The heap: every allocated map and every allocated `Conversation`. -/
structure Heap where
  maps : List GoMap
  convs : List Conversation
  deriving DecidableEq, Repr

/-- The contents of the map behind a reference; a nil map reads as empty. -/
def Heap.mapAt (h : Heap) (r : Option Nat) : GoMap :=
  match r with
  | none => []
  | some i => (h.maps.get? i).getD []

/-- The record behind a `*Conversation`; `none` for the nil pointer. -/
def Heap.convAt (h : Heap) (p : Option Nat) : Option Conversation :=
  match p with
  | none => none
  | some a => h.convs.get? a

/-- The reference denotes an allocated (hence non-nil) map. -/
def Heap.Allocated (h : Heap) (r : Option Nat) : Prop :=
  ∃ i, r = some i ∧ i < h.maps.length

/-- Replace the contents of the map behind a reference (no effect on nil). -/
def Heap.setMap (h : Heap) (r : Option Nat) (m : GoMap) : Heap :=
  match r with
  | none => h
  | some i => { maps := h.maps.set i m, convs := h.convs }

/-- The expression `make(map[string]interface{}, 0)`: a fresh empty map. -/
def Heap.makeMap (h : Heap) : Option Nat × Heap :=
  (some h.maps.length, { maps := h.maps ++ [[]], convs := h.convs })

/-- The expression `&Conversation{...}`: a fresh record on the heap. -/
def Heap.newConv (h : Heap) (c : Conversation) : Option Nat × Heap :=
  (some h.convs.length, { maps := h.maps, convs := h.convs ++ [c] })

/-! ## Machine integers and time -/

/-- Two's-complement reduction of an integer to `int64`. -/
def wrapInt64 (x : Int) : Int :=
  (x + 9223372036854775808) % 18446744073709551616 - 9223372036854775808

/-- Multiplication of `int64` values. -/
def mulInt64 (a b : Int) : Int := wrapInt64 (a * b)

/-- The expression `time.Duration(cm.MaxAge * 1000 * 1000 * 1000)`. -/
def ConversationManager.duration (cm : ConversationManager) : Int :=
  mulInt64 (mulInt64 (mulInt64 cm.MaxAge 1000) 1000) 1000

/-- The method `t.Add(d)` of `time.Time`. -/
def timeAdd (t d : Int) : Int := t + d

/-- The method `t.After(u)` of `time.Time`. -/
def timeAfter (t u : Int) : Bool := decide (u < t)

/-! ## Constants -/

/-- Constant `CookieName`. -/
def CookieName : String := "goodsCool"

/-- Constant `Timeout`. -/
def Timeout : Int := 60 * 30

/-- Errors that reach a caller: `http.ErrNoCookie`, or a failure of the
identifier generator (`url.QueryUnescape`). -/
inductive Err where
  | ErrNoCookie : Err
  | unescape : String → Err
  deriving DecidableEq, Repr

/-! ## `MemStorage` -/

/-- Method `MemStorage.Store`. -/
def MemStorage.Store (ms : MemStorage) (key : String) (value : Value) (h : Heap) :
    Option (Bool × Heap) :=
  match ms.DataStorage with
  | none => none
  | some i =>
    if i < h.maps.length then
      some (true, h.setMap (some i) (mapSet (h.mapAt (some i)) key value))
    else none

/-- Method `MemStorage.Load`. -/
def MemStorage.Load (ms : MemStorage) (key : String) (h : Heap) : Value × Bool :=
  let storage := h.mapAt ms.DataStorage
  let value := mapIndex storage key
  if value ≠ Value.nil then (value, true) else (value, false)

/-- Method `MemStorage.Delete`. -/
def MemStorage.Delete (ms : MemStorage) (key : String) (h : Heap) : Value × Heap :=
  let storage := h.mapAt ms.DataStorage
  let value := match mapGet storage key with
    | some v => v
    | none => Value.nil
  (value, h.setMap ms.DataStorage (mapDelete storage key))

/-! ## `ConversationManager` and `Conversation` -/

/-- Method `ConversationManager.Create`; `now` is the reading of `time.Now()`.
The result is the returned pointer, the returned error and the new heap. -/
def ConversationManager.Create (cm : ConversationManager) (cid : String) (now : Int)
    (h : Heap) : Option ((Option Nat × Option Err) × Heap) :=
  let storage := cm.Storage
  let (value, ok) := storage.Load cid h
  if ok then
    match value with
    | Value.conv conversation => some ((conversation, none), h)
    | _ => none
  else
    let (m, h1) := h.makeMap
    let (c2, h2) := h1.newConv
      { LastAccessTime := now, Cid := cid, CSData := { DataStorage := m }, MaxAge := 60 * 30 }
    match cm.Storage.Store cid (Value.conv c2) h2 with
    | none => none
    | some (_, h3) => some ((c2, none), h3)

/-- Method `ConversationManager.GetConversation`. -/
def ConversationManager.GetConversation (cm : ConversationManager) (cid : String)
    (h : Heap) : Option (Option Nat × Heap) :=
  let storage := cm.Storage
  let (value, ok) := storage.Load cid h
  if ok then
    match value with
    | Value.conv conversation => some (conversation, h)
    | _ => none
  else some (none, h)

/-- Method `ConversationManager.Destroy`. -/
def ConversationManager.Destroy (cm : ConversationManager) (cid : String) (h : Heap) :
    (Bool × Option Err) × Heap :=
  if (cm.Storage.Load cid h).2 then
    ((true, none), (cm.Storage.Delete cid h).2)
  else ((true, none), h)

/-- Method `Conversation.Get`, on the session behind pointer `c`. -/
def Conversation.Get (c : Option Nat) (key : String) (h : Heap) :
    Option (Value × Option Err) :=
  match h.convAt c with
  | none => none
  | some s =>
    let (load, ok) := s.CSData.Load key h
    if ok then some (load, none) else some (Value.nil, none)

/-- Method `Conversation.Set`, on the session behind pointer `c`. -/
def Conversation.Set (c : Option Nat) (key : String) (value : Value) (h : Heap) :
    Option ((Bool × Option Err) × Heap) :=
  match h.convAt c with
  | none => none
  | some s =>
    match s.CSData.Store key value h with
    | none => none
    | some (_, h1) => some ((true, none), h1)

/-- One iteration of the `range` loop of `GC` over the entry `(cid, conversation)`. -/
def ConversationManager.gcVisit (cm : ConversationManager) (duration now : Int)
    (h : Heap) (entry : String × Value) : Option Heap :=
  match entry.2 with
  | Value.conv c =>
    match h.convAt c with
    | none => none
    | some s =>
      let expire := timeAdd s.LastAccessTime duration
      if timeAfter now expire then some (cm.Destroy entry.1 h).2 else some h
  | _ => some h

/-- The `range` loop of `GC` over the entries still to be visited. -/
def ConversationManager.gcLoop (cm : ConversationManager) (duration now : Int) :
    List (String × Value) → Heap → Option Heap
  | [], h => some h
  | entry :: rest, h =>
    match cm.gcVisit duration now h entry with
    | none => none
    | some h1 => cm.gcLoop duration now rest h1

/-- One pass of the loop body of `GC` after the sleep; `now` is the reading of
`time.Now()`.  The only mutation during the pass is the removal of the entry
being visited, so the entries visited are those present at the start. -/
def ConversationManager.GC (cm : ConversationManager) (now : Int) (h : Heap) :
    Option Heap :=
  let storage := h.mapAt cm.Storage.DataStorage
  let duration := cm.duration
  cm.gcLoop duration now storage h

/-! ## Request binding -/

/-- The fields of `http.Cookie`; `Expires` is an instant in nanoseconds. -/
structure Cookie where
  Name : String
  Value : String
  Path : String
  Expires : Int
  RawExpires : String
  MaxAge : Int
  Secure : Bool
  HttpOnly : Bool
  SameSite : Int
  Raw : String
  Unparsed : List String
  deriving DecidableEq, Repr

/-- An `http.Request`, reduced to the cookies it carries (name and value). -/
structure Request where
  cookies : List (String × String)
  deriving DecidableEq, Repr

/-- Method `Request.Cookie` of `net/http`: the value of the first cookie with
the given name, or a nil cookie together with `ErrNoCookie`. -/
def Request.Cookie (r : Request) (name : String) : Option String × Option Err :=
  match r.cookies.find? (fun c => decide (c.1 = name)) with
  | some c => (some c.2, none)
  | none => (none, some Err.ErrNoCookie)

/-- Write through a `*Conversation`: replace the record behind the pointer. -/
def Heap.setConv (h : Heap) (a : Nat) (c : Conversation) : Heap :=
  { maps := h.maps, convs := h.convs.set a c }

/-- Method `ConversationManager.ManagerNormalRequest`.  `w` holds the cookies
already handed to `http.SetCookie`, `gen` is the result of
`url.QueryUnescape(uuid.Must(uuid.NewV4(), nil).String())`, `now1` the reading
of `time.Now()` inside `Create` and `now2` the reading taken afterwards.  The
conversion `int(cm.MaxAge)` is the identity (`int` has 64 bits).  The result is
the returned pair, the response cookies and the new heap. -/
def ConversationManager.ManagerNormalRequest (cm : ConversationManager) (w : List Cookie)
    (r : Request) (gen : String × Option Err) (now1 now2 : Int) (h : Heap) :
    Option ((Option Nat × Option Err) × List Cookie × Heap) :=
  let (cookie, err) := r.Cookie Session.CookieName
  let e : Option Err := if err ≠ none then err else none
  let (conversationId, err) : String × Option Err :=
    match cookie with
    | none => gen
    | some value => (value, err)
  if cookie = none ∧ err ≠ none then some ((none, err), w, h)
  else
    match cm.Create conversationId now1 h with
    | none => none
    | some ((_, some err), h1) => some ((none, some err), w, h1)
    | some ((cs, none), h1) =>
      match cs, h1.convAt cs with
      | some a, some s =>
        let h2 := h1.setConv a { s with LastAccessTime := now2 }
        let expire := timeAdd now2 cm.duration
        let c : Cookie :=
          { Name := Session.CookieName, Value := conversationId, Path := "/", Expires := expire,
            RawExpires := "", MaxAge := cm.MaxAge, Secure := false, HttpOnly := false,
            SameSite := 0, Raw := "", Unparsed := [] }
        some ((cs, e), w ++ [c], h2)
      | _, _ => none

/-- Function `UUID`; `gen` is the result of the identifier generator. -/
def UUID (gen : String × Option Err) : String × Option Err := gen

/-- Method `ConversationManager.ManagerLogin`.  The body works on the package
variable `Cmgr`, passed here as an argument, not on its receiver `cm`; `now` is
the reading of `time.Now()` in the body and `now1` the one inside `Create`.
The result is the response cookies and the new heap. -/
def ConversationManager.ManagerLogin (_cm : ConversationManager) (Cmgr : ConversationManager)
    (loginUser : Value) (w : List Cookie) (r : Request) (gen : String × Option Err)
    (now now1 : Int) (h : Heap) : Option (List Cookie × Heap) :=
  let cookie := (r.Cookie Session.CookieName).1
  let conversationId : String :=
    match cookie with
    | some value => value
    | none => (UUID gen).1
  let expire := timeAdd now Cmgr.duration
  let cookie2 : Cookie :=
    { Name := Session.CookieName, Value := conversationId, Path := "/", Expires := expire,
      RawExpires := "", MaxAge := 0, Secure := false, HttpOnly := false,
      SameSite := 0, Raw := "", Unparsed := [] }
  match Cmgr.GetConversation conversationId h with
  | none => none
  | some (found, h0) =>
    let created : Option (Option Nat × Heap) :=
      match found with
      | none =>
        match Cmgr.Create cookie2.Value now1 h0 with
        | none => none
        | some ((create, _), h1) => some (create, h1)
      | some a => some (some a, h0)
    match created with
    | none => none
    | some (conversation, h1) =>
      match conversation, h1.convAt conversation with
      | some a, some s =>
        let h2 := h1.setConv a { s with LastAccessTime := now }
        match Conversation.Set conversation "user" loginUser h2 with
        | none => none
        | some (_, h3) => some (w ++ [cookie2], h3)
      | _, _ => none

/-! ## Well-formedness of the registry -/

/-- The registry of a manager: the contents of the map `cm.Storage.DataStorage`. -/
def ConversationManager.registry (cm : ConversationManager) (h : Heap) : GoMap :=
  h.mapAt cm.Storage.DataStorage

/-- The registry holds only sessions: every value in it is a `*Conversation`. -/
def ConversationManager.HoldsOnlySessions (cm : ConversationManager) (h : Heap) : Prop :=
  ∀ e ∈ cm.registry h, ∃ p, e.2 = Value.conv p

/-- Every value in the registry is a pointer to an allocated session. -/
def ConversationManager.SessionsValid (cm : ConversationManager) (h : Heap) : Prop :=
  ∀ e ∈ cm.registry h, ∃ a s, e.2 = Value.conv (some a) ∧ h.convAt (some a) = some s

/-- The registry invariant: every entry maps its key to an allocated session
whose `Cid` is that key. -/
def ConversationManager.RegistryInv (cm : ConversationManager) (h : Heap) : Prop :=
  ∀ e ∈ cm.registry h, ∃ a s, e.2 = Value.conv (some a) ∧ h.convAt (some a) = some s ∧
    s.Cid = e.1

/-- The entries that a pass of `GC` at time `now` leaves in place: an entry is
dropped exactly when its value is a session whose last access plus the
manager's duration lies strictly before `now`. -/
def ConversationManager.keeps (cm : ConversationManager) (now : Int) (h : Heap)
    (e : String × Value) : Bool :=
  match e.2 with
  | Value.conv c =>
    match h.convAt c with
    | some s => !timeAfter now (timeAdd s.LastAccessTime cm.duration)
    | none => true
  | _ => true

/-! ## Sequences of calls -/

/-- The calls a client of the package can issue: the manager's methods, a scan
pass of `GC`, and `Get`/`Set` through a session pointer it holds. -/
inductive Op where
  | create (cid : String) (now : Int) : Op
  | destroy (cid : String) : Op
  | getConversation (cid : String) : Op
  | gc (now : Int) : Op
  | managerNormalRequest (r : Request) (gen : String × Option Err) (now1 now2 : Int) : Op
  | get (c : Option Nat) (key : String) : Op
  | set (c : Option Nat) (key : String) (value : Value) : Op
  deriving DecidableEq, Repr

/-- The heap after one call; `none` when the call panics.  Every request comes
with its own, empty response writer. -/
def ConversationManager.step (cm : ConversationManager) (op : Op) (h : Heap) : Option Heap :=
  match op with
  | Op.create cid now => (cm.Create cid now h).map (fun x => x.2)
  | Op.destroy cid => some (cm.Destroy cid h).2
  | Op.getConversation cid => (cm.GetConversation cid h).map (fun x => x.2)
  | Op.gc now => cm.GC now h
  | Op.managerNormalRequest r gen now1 now2 =>
    (cm.ManagerNormalRequest [] r gen now1 now2 h).map (fun x => x.2.2)
  | Op.get c key => (Conversation.Get c key h).map (fun _ => h)
  | Op.set c key value => (Conversation.Set c key value h).map (fun x => x.2)

/-- The heap after a finite sequence of calls, each made after the previous
one has returned; `none` when one of them panics. -/
def ConversationManager.run (cm : ConversationManager) : List Op → Heap → Option Heap
  | [], h => some h
  | op :: ops, h =>
    match cm.step op h with
    | none => none
    | some h1 => cm.run ops h1

/-- A `Get` or `Set` call is made through a pointer to an allocated session;
the manager's own methods carry no such condition. -/
def Op.onSession (op : Op) (h : Heap) : Prop :=
  match op with
  | Op.get c _ => ∃ s, h.convAt c = some s
  | Op.set c _ _ => ∃ s, h.convAt c = some s
  | _ => True

/-- The invariant of the heaps the package produces: the registry map is
allocated, its keys are distinct, every entry maps its key to an allocated
session with that `Cid`, and the private map of every session is allocated and
is not the registry map. -/
def ConversationManager.Inv (cm : ConversationManager) (h : Heap) : Prop :=
  h.Allocated cm.Storage.DataStorage ∧ (mapKeys (cm.registry h)).Nodup ∧ cm.RegistryInv h ∧
  ∀ s ∈ h.convs, h.Allocated s.CSData.DataStorage ∧
    s.CSData.DataStorage ≠ cm.Storage.DataStorage

/-! ## Lemmas on maps and the heap -/

theorem mapGet_cons_eq (k : String) (v : Value) (rest : GoMap) :
    mapGet ((k, v) :: rest) k = some v := by
  simp [mapGet]

theorem mapGet_cons_ne (k0 k : String) (v : Value) (rest : GoMap) (hne : k0 ≠ k) :
    mapGet ((k0, v) :: rest) k = mapGet rest k := by
  simp [mapGet, hne]

theorem mapDelete_cons_eq (k : String) (v : Value) (rest : GoMap) :
    mapDelete ((k, v) :: rest) k = mapDelete rest k := by
  simp [mapDelete]

theorem mapDelete_cons_ne (k0 k : String) (v : Value) (rest : GoMap) (hne : k0 ≠ k) :
    mapDelete ((k0, v) :: rest) k = (k0, v) :: mapDelete rest k := by
  simp [mapDelete, hne]

theorem mapGet_mapDelete_self (m : GoMap) (k : String) : mapGet (mapDelete m k) k = none := by
  induction m with
  | nil => rfl
  | cons e rest ih =>
    obtain ⟨k0, v0⟩ := e
    by_cases hk : k0 = k
    · rw [hk, mapDelete_cons_eq]; exact ih
    · rw [mapDelete_cons_ne k0 k v0 rest hk, mapGet_cons_ne k0 k v0 _ hk]; exact ih

theorem mapGet_mapDelete_ne (m : GoMap) (k k1 : String) (hne : k1 ≠ k) :
    mapGet (mapDelete m k) k1 = mapGet m k1 := by
  induction m with
  | nil => rfl
  | cons e rest ih =>
    obtain ⟨k0, v0⟩ := e
    by_cases hk : k0 = k
    · have hk1 : k0 ≠ k1 := fun hc => hne (hc.symm.trans hk)
      rw [mapGet_cons_ne k0 k1 v0 rest hk1, hk, mapDelete_cons_eq]; exact ih
    · rw [mapDelete_cons_ne k0 k v0 rest hk]
      by_cases hk1 : k0 = k1
      · rw [hk1, mapGet_cons_eq, mapGet_cons_eq]
      · rw [mapGet_cons_ne k0 k1 v0 _ hk1, mapGet_cons_ne k0 k1 v0 _ hk1]; exact ih

theorem mapGet_mapSet_self (m : GoMap) (k : String) (v : Value) :
    mapGet (mapSet m k v) k = some v := by
  unfold mapSet; exact mapGet_cons_eq k v _

theorem mapGet_mapSet_ne (m : GoMap) (k k1 : String) (v : Value) (hne : k1 ≠ k) :
    mapGet (mapSet m k v) k1 = mapGet m k1 := by
  unfold mapSet
  rw [mapGet_cons_ne k k1 v _ (fun hc => hne hc.symm)]
  exact mapGet_mapDelete_ne m k k1 hne

theorem mapDelete_of_absent (m : GoMap) (k : String) (hk : mapGet m k = none) :
    mapDelete m k = m := by
  induction m with
  | nil => rfl
  | cons e rest ih =>
    obtain ⟨k0, v0⟩ := e
    by_cases hk0 : k0 = k
    · rw [hk0, mapGet_cons_eq] at hk; cases hk
    · rw [mapGet_cons_ne k0 k v0 rest hk0] at hk
      rw [mapDelete_cons_ne k0 k v0 rest hk0, ih hk]

theorem mapAt_setMap_same (h : Heap) (i : Nat) (m : GoMap) (hi : i < h.maps.length) :
    (h.setMap (some i) m).mapAt (some i) = m := by
  simp [Heap.setMap, Heap.mapAt, List.getElem?_set, hi]

theorem mapAt_setMap_ne (h : Heap) (i : Nat) (m : GoMap) (r : Option Nat)
    (hne : r ≠ some i) : (h.setMap (some i) m).mapAt r = h.mapAt r := by
  cases r with
  | none => rfl
  | some j =>
    have hji : ¬ i = j := fun hc => hne (by rw [hc])
    simp [Heap.setMap, Heap.mapAt, List.getElem?_set, hji]

theorem setMap_same_contents (h : Heap) (r : Option Nat) : h.setMap r (h.mapAt r) = h := by
  cases r with
  | none => rfl
  | some i =>
    obtain ⟨maps, convs⟩ := h
    simp only [Heap.setMap, Heap.mapAt, Heap.mk.injEq, and_true]
    apply List.ext_get?
    intro n
    by_cases hn : i = n
    · subst hn
      by_cases hlt : i < maps.length
      · simp [List.getElem?_set, hlt]
      · have hle : maps.length ≤ i := Nat.le_of_not_lt hlt
        simp [List.getElem?_set, hlt, hle]
    · simp [List.getElem?_set, hn]

theorem load_eq (ms : MemStorage) (k : String) (h : Heap) :
    ms.Load k h = (mapIndex (h.mapAt ms.DataStorage) k,
      decide (mapIndex (h.mapAt ms.DataStorage) k ≠ Value.nil)) := by
  unfold MemStorage.Load
  by_cases hv : mapIndex (h.mapAt ms.DataStorage) k = Value.nil
  · simp [hv]
  · simp [hv]

theorem mapAt_of_not_lt (h : Heap) (i : Nat) (hi : ¬ i < h.maps.length) :
    h.mapAt (some i) = [] := by
  have hle : h.maps.length ≤ i := Nat.le_of_not_lt hi
  simp [Heap.mapAt, List.getElem?_eq_none hle]

theorem setMap_of_not_lt (h : Heap) (i : Nat) (m : GoMap) (hi : ¬ i < h.maps.length) :
    h.setMap (some i) m = h := by
  obtain ⟨maps, convs⟩ := h
  have hle : maps.length ≤ i := Nat.le_of_not_lt hi
  simp [Heap.setMap, List.set_eq_of_length_le hle]

theorem mapAt_delete (ms : MemStorage) (k : String) (h : Heap) :
    (ms.Delete k h).2.mapAt ms.DataStorage = mapDelete (h.mapAt ms.DataStorage) k := by
  unfold MemStorage.Delete
  cases hr : ms.DataStorage with
  | none => rfl
  | some i =>
    by_cases hi : i < h.maps.length
    · exact mapAt_setMap_same h i _ hi
    · simp only [setMap_of_not_lt h i _ hi, mapAt_of_not_lt h i hi]; rfl

theorem mapIndex_of_get_none (m : GoMap) (k : String) (hk : mapGet m k = none) :
    mapIndex m k = Value.nil := by
  simp [mapIndex, hk]

theorem mapIndex_of_get_some (m : GoMap) (k : String) (v : Value) (hk : mapGet m k = some v) :
    mapIndex m k = v := by
  simp [mapIndex, hk]

theorem store_eq (ms : MemStorage) (k : String) (v : Value) (h : Heap) (i : Nat)
    (hr : ms.DataStorage = some i) (hi : i < h.maps.length) :
    ms.Store k v h = some (true, h.setMap (some i) (mapSet (h.mapAt (some i)) k v)) := by
  simp [MemStorage.Store, hr, hi]

theorem mem_of_mapGet (m : GoMap) (k : String) (v : Value) (hk : mapGet m k = some v) :
    (k, v) ∈ m := by
  induction m with
  | nil => cases hk
  | cons e rest ih =>
    obtain ⟨k0, v0⟩ := e
    by_cases hk0 : k0 = k
    · rw [hk0, mapGet_cons_eq] at hk
      cases hk
      rw [hk0]
      exact List.mem_cons_self _ _
    · rw [mapGet_cons_ne k0 k v0 rest hk0] at hk
      exact List.mem_cons_of_mem _ (ih hk)

theorem mapIndex_cases (m : GoMap) (k : String) :
    (mapGet m k = none ∧ mapIndex m k = Value.nil) ∨
    (mapGet m k = some (mapIndex m k)) := by
  unfold mapIndex
  cases mapGet m k with
  | none => exact Or.inl ⟨rfl, rfl⟩
  | some v => exact Or.inr rfl

theorem create_found (cm : ConversationManager) (id : String) (now : Int) (h : Heap)
    (q : Option Nat) (hv : mapIndex (h.mapAt cm.Storage.DataStorage) id = Value.conv q) :
    cm.Create id now h = some ((q, none), h) := by
  simp only [ConversationManager.Create, load_eq, hv]
  simp

theorem create_absent (cm : ConversationManager) (id : String) (now : Int) (h : Heap) (i : Nat)
    (hr : cm.Storage.DataStorage = some i) (hi : i < h.maps.length)
    (hv : mapIndex (h.mapAt (some i)) id = Value.nil) :
    ∃ h1, cm.Create id now h = some ((some h.convs.length, none), h1) ∧
      h1.convs = h.convs ++ [Conversation.mk now id (MemStorage.mk (some h.maps.length)) (60 * 30)] ∧
      h1.maps.length = h.maps.length + 1 ∧
      h1.mapAt (some i) = mapSet (h.mapAt (some i)) id (Value.conv (some h.convs.length)) ∧
      h1.mapAt (some h.maps.length) = [] ∧
      (∀ r, r ≠ some i → r ≠ some h.maps.length → h1.mapAt r = h.mapAt r) := by
  have hi2 : i < (h.maps ++ [[]]).length := by
    rw [List.length_append]; exact Nat.lt_add_right _ hi
  have hne : i ≠ h.maps.length := Nat.ne_of_lt hi
  have hold : ∀ j, j < h.maps.length →
      (Heap.mk (h.maps ++ [[]]) (h.convs ++ [Conversation.mk now id (MemStorage.mk (some h.maps.length)) (60 * 30)])).mapAt (some j) =
      h.mapAt (some j) := by
    intro j hj
    simp [Heap.mapAt, List.getElem?_append_left hj]
  refine ⟨(Heap.mk (h.maps ++ [[]]) (h.convs ++
      [Conversation.mk now id (MemStorage.mk (some h.maps.length)) (60 * 30)])).setMap (some i)
      (mapSet ((Heap.mk (h.maps ++ [[]]) (h.convs ++
        [Conversation.mk now id (MemStorage.mk (some h.maps.length)) (60 * 30)])).mapAt (some i))
        id (Value.conv (some h.convs.length))), ?_, ?_, ?_, ?_, ?_, ?_⟩
  · simp only [ConversationManager.Create, load_eq, hr, hv, ne_eq, not_true_eq_false,
      decide_False, Bool.false_eq_true, if_false, Heap.makeMap, Heap.newConv]
    rw [store_eq cm.Storage id _ _ i hr hi2]
  · simp [Heap.setMap]
  · simp [Heap.setMap]
  · rw [mapAt_setMap_same _ i _ hi2, hold i hi]
  · rw [mapAt_setMap_ne _ i _ _ (fun hc => hne (Option.some.inj hc).symm)]
    simp [Heap.mapAt]
  · intro r hri hrn
    rw [mapAt_setMap_ne _ i _ r hri]
    cases r with
    | none => rfl
    | some j =>
      have hjn : j ≠ h.maps.length := fun hc => hrn (by rw [hc])
      by_cases hj : j < h.maps.length
      · exact hold j hj
      · have hj1 : h.maps.length + 1 ≤ j := by omega
        have hj2 : h.maps.length ≤ j := by omega
        simp [Heap.mapAt, List.getElem?_eq_none hj2, List.getElem?_eq_none, hj1]

theorem destroy_result (cm : ConversationManager) (id : String) (h : Heap) :
    (cm.Destroy id h).1 = (true, none) := by
  unfold ConversationManager.Destroy
  split <;> rfl

theorem destroy_heap_cases (cm : ConversationManager) (id : String) (h : Heap) :
    (mapIndex (cm.registry h) id ≠ Value.nil ∧
      (cm.Destroy id h).2 = (cm.Storage.Delete id h).2) ∨
    (mapIndex (cm.registry h) id = Value.nil ∧ (cm.Destroy id h).2 = h) := by
  unfold ConversationManager.Destroy ConversationManager.registry
  rw [load_eq]
  by_cases hv : mapIndex (h.mapAt cm.Storage.DataStorage) id = Value.nil
  · right; simp [hv]
  · left; simp [hv]

theorem setMap_convs (h : Heap) (r : Option Nat) (m : GoMap) : (h.setMap r m).convs = h.convs := by
  cases r <;> rfl

theorem setMap_maps_length (h : Heap) (r : Option Nat) (m : GoMap) :
    (h.setMap r m).maps.length = h.maps.length := by
  cases r with
  | none => rfl
  | some i => simp [Heap.setMap]

theorem destroy_convs (cm : ConversationManager) (id : String) (h : Heap) :
    (cm.Destroy id h).2.convs = h.convs := by
  rcases destroy_heap_cases cm id h with ⟨_, he⟩ | ⟨_, he⟩
  · rw [he]; exact setMap_convs _ _ _
  · rw [he]

theorem destroy_maps_length (cm : ConversationManager) (id : String) (h : Heap) :
    (cm.Destroy id h).2.maps.length = h.maps.length := by
  rcases destroy_heap_cases cm id h with ⟨_, he⟩ | ⟨_, he⟩
  · rw [he]; exact setMap_maps_length _ _ _
  · rw [he]

theorem destroy_registry (cm : ConversationManager) (id : String) (h : Heap) :
    (mapIndex (cm.registry h) id ≠ Value.nil ∧
      cm.registry (cm.Destroy id h).2 = mapDelete (cm.registry h) id) ∨
    (mapIndex (cm.registry h) id = Value.nil ∧ (cm.Destroy id h).2 = h) := by
  rcases destroy_heap_cases cm id h with ⟨hv, he⟩ | ⟨hv, he⟩
  · left
    refine ⟨hv, ?_⟩
    unfold ConversationManager.registry
    rw [he]
    exact mapAt_delete cm.Storage id h
  · right; exact ⟨hv, he⟩

theorem destroy_mapIndex_self (cm : ConversationManager) (id : String) (h : Heap) :
    mapIndex (cm.registry (cm.Destroy id h).2) id = Value.nil := by
  rcases destroy_registry cm id h with ⟨_, he⟩ | ⟨hv, he⟩
  · rw [he]; exact mapIndex_of_get_none _ _ (mapGet_mapDelete_self _ _)
  · rw [he]; exact hv

theorem getConversation_found (cm : ConversationManager) (id : String) (h : Heap)
    (q : Option Nat) (hv : mapIndex (cm.registry h) id = Value.conv q) :
    cm.GetConversation id h = some (q, h) := by
  unfold ConversationManager.registry at hv
  simp only [ConversationManager.GetConversation, load_eq, hv]
  simp

theorem getConversation_nil (cm : ConversationManager) (id : String) (h : Heap)
    (hv : mapIndex (cm.registry h) id = Value.nil) :
    cm.GetConversation id h = some (none, h) := by
  unfold ConversationManager.registry at hv
  simp only [ConversationManager.GetConversation, load_eq, hv]
  simp

theorem get_eq (c : Option Nat) (s : Conversation) (k : String) (h : Heap)
    (hc : h.convAt c = some s) :
    Conversation.Get c k h = some (mapIndex (h.mapAt s.CSData.DataStorage) k, none) := by
  simp only [Conversation.Get, hc, load_eq]
  by_cases hv : mapIndex (h.mapAt s.CSData.DataStorage) k = Value.nil
  · simp [hv]
  · simp [hv]

theorem mapGet_eq_none_of_not_mem (m : GoMap) (k : String) (hk : k ∉ mapKeys m) :
    mapGet m k = none := by
  induction m with
  | nil => rfl
  | cons e rest ih =>
    obtain ⟨k0, v0⟩ := e
    have hk0 : k0 ≠ k := fun hc => hk (by simp [mapKeys, hc])
    rw [mapGet_cons_ne k0 k v0 rest hk0]
    exact ih (fun hc => hk (by
      simp only [mapKeys, List.map_cons, List.mem_cons]
      exact Or.inr hc))

theorem not_mem_of_mapGet_eq_none (m : GoMap) (k : String) (hk : mapGet m k = none) :
    k ∉ mapKeys m := by
  induction m with
  | nil => simp [mapKeys]
  | cons e rest ih =>
    obtain ⟨k0, v0⟩ := e
    by_cases hk0 : k0 = k
    · rw [hk0, mapGet_cons_eq] at hk; cases hk
    · rw [mapGet_cons_ne k0 k v0 rest hk0] at hk
      simp only [mapKeys, List.map_cons, List.mem_cons, not_or]
      exact ⟨fun hc => hk0 hc.symm, ih hk⟩

theorem mapKeys_filter_subset (m : GoMap) (p : String × Value → Bool) (k : String)
    (hk : k ∈ mapKeys (m.filter p)) : k ∈ mapKeys m := by
  simp only [mapKeys, List.mem_map] at hk ⊢
  obtain ⟨e, he, hek⟩ := hk
  exact ⟨e, (List.mem_filter.mp he).1, hek⟩

theorem mapGet_filter_none (m : GoMap) (p : String × Value → Bool) (k : String)
    (hk : mapGet m k = none) : mapGet (m.filter p) k = none :=
  mapGet_eq_none_of_not_mem _ _
    (fun hc => not_mem_of_mapGet_eq_none m k hk (mapKeys_filter_subset m p k hc))

theorem mapGet_filter_of_nodup (m : GoMap) (p : String × Value → Bool) (k : String) (v : Value)
    (hnd : (mapKeys m).Nodup) (hk : mapGet m k = some v) :
    mapGet (m.filter p) k = if p (k, v) then some v else none := by
  induction m with
  | nil => cases hk
  | cons e rest ih =>
    obtain ⟨k0, v0⟩ := e
    simp only [mapKeys, List.map_cons, List.nodup_cons] at hnd
    by_cases hk0 : k0 = k
    · subst hk0
      rw [mapGet_cons_eq] at hk
      have hv : v0 = v := Option.some.inj hk
      subst hv
      by_cases hp : p (k0, v0) = true
      · rw [List.filter_cons_of_pos hp, mapGet_cons_eq, if_pos hp]
      · rw [List.filter_cons_of_neg hp, if_neg hp]
        exact mapGet_filter_none rest p k0 (mapGet_eq_none_of_not_mem rest k0 hnd.1)
    · rw [mapGet_cons_ne k0 k v0 rest hk0] at hk
      by_cases hp : p (k0, v0) = true
      · rw [List.filter_cons_of_pos hp, mapGet_cons_ne k0 k v0 _ hk0]
        exact ih hnd.2 hk
      · rw [List.filter_cons_of_neg hp]
        exact ih hnd.2 hk

theorem mapGet_of_mem_nodup (m : GoMap) (k : String) (v : Value)
    (hnd : (mapKeys m).Nodup) (hmem : (k, v) ∈ m) : mapGet m k = some v := by
  induction m with
  | nil => cases hmem
  | cons e rest ih =>
    obtain ⟨k0, v0⟩ := e
    simp only [mapKeys, List.map_cons, List.nodup_cons] at hnd
    rcases List.mem_cons.mp hmem with heq | hin
    · cases heq
      exact mapGet_cons_eq k v rest
    · have hk0 : k0 ≠ k := by
        intro hc
        apply hnd.1
        rw [hc]
        exact List.mem_map.mpr ⟨(k, v), hin, rfl⟩
      rw [mapGet_cons_ne k0 k v0 rest hk0]
      exact ih hnd.2 hin

theorem mapDelete_eq_self_of_not_mem (m : GoMap) (k : String) (hk : k ∉ mapKeys m) :
    mapDelete m k = m :=
  mapDelete_of_absent m k (mapGet_eq_none_of_not_mem m k hk)

theorem mapDelete_append (m1 m2 : GoMap) (k : String) :
    mapDelete (m1 ++ m2) k = mapDelete m1 k ++ mapDelete m2 k := by
  simp [mapDelete, List.filter_append]

theorem mapDelete_middle (done rest : GoMap) (k : String) (v : Value)
    (hnd : (mapKeys (done ++ (k, v) :: rest)).Nodup) :
    mapDelete (done ++ (k, v) :: rest) k = done ++ rest := by
  have hnd1 : (mapKeys done ++ k :: mapKeys rest).Nodup := by
    simpa [mapKeys] using hnd
  have hparts := List.nodup_append.mp hnd1
  have hk1 : k ∉ mapKeys done := fun hc => hparts.2.2 hc (List.mem_cons_self _ _)
  have hk2 : k ∉ mapKeys rest := (List.nodup_cons.mp hparts.2.1).1
  rw [mapDelete_append, mapDelete_cons_eq, mapDelete_eq_self_of_not_mem done k hk1,
    mapDelete_eq_self_of_not_mem rest k hk2]

theorem mapGet_middle (done rest : GoMap) (k : String) (v : Value)
    (hnd : (mapKeys (done ++ (k, v) :: rest)).Nodup) :
    mapGet (done ++ (k, v) :: rest) k = some v :=
  mapGet_of_mem_nodup _ k v hnd (List.mem_append_right _ (List.mem_cons_self _ _))

theorem nodup_drop_middle (done rest : GoMap) (e : String × Value)
    (hnd : (mapKeys (done ++ e :: rest)).Nodup) : (mapKeys (done ++ rest)).Nodup := by
  have hsub : List.Sublist (mapKeys (done ++ rest)) (mapKeys (done ++ e :: rest)) := by
    unfold mapKeys
    exact List.Sublist.map _ (List.Sublist.append_left (List.sublist_cons_self e rest) done)
  exact List.Nodup.sublist hsub hnd

theorem keeps_congr (cm : ConversationManager) (now : Int) (h h1 : Heap)
    (hc : h1.convs = h.convs) : cm.keeps now h1 = cm.keeps now h := by
  funext e
  unfold ConversationManager.keeps Heap.convAt
  rw [hc]

theorem destroy_mapAt_ne (cm : ConversationManager) (id : String) (h : Heap) (r : Option Nat)
    (hne : r ≠ cm.Storage.DataStorage) : (cm.Destroy id h).2.mapAt r = h.mapAt r := by
  rcases destroy_heap_cases cm id h with ⟨_, he⟩ | ⟨_, he⟩
  · rw [he]
    unfold MemStorage.Delete
    cases hr : cm.Storage.DataStorage with
    | none => rfl
    | some i => exact mapAt_setMap_ne h i _ r (by rw [← hr]; exact hne)
  · rw [he]

theorem convAt_congr (h h1 : Heap) (p : Option Nat) (hc : h1.convs = h.convs) :
    h1.convAt p = h.convAt p := by
  unfold Heap.convAt
  rw [hc]

theorem duration_eq (cm : ConversationManager) (h0 : 0 ≤ cm.MaxAge * 1000000000)
    (h1 : cm.MaxAge * 1000000000 < 9223372036854775808) :
    cm.duration = cm.MaxAge * 1000000000 := by
  unfold ConversationManager.duration mulInt64 wrapInt64
  omega

theorem gcLoop_spec (cm : ConversationManager) (now : Int) (i : Nat)
    (hr : cm.Storage.DataStorage = some i) :
    ∀ (rest done : GoMap) (h : Heap), i < h.maps.length → h.mapAt (some i) = done ++ rest →
      (mapKeys (done ++ rest)).Nodup →
      (∀ e ∈ rest, ∃ a s, e.2 = Value.conv (some a) ∧ h.convAt (some a) = some s) →
      ∃ h1, cm.gcLoop cm.duration now rest h = some h1 ∧ h1.convs = h.convs ∧
        h1.mapAt (some i) = done ++ rest.filter (cm.keeps now h) ∧
        (∀ r, r ≠ some i → h1.mapAt r = h.mapAt r) := by
  intro rest
  induction rest with
  | nil =>
    intro done h _ hreg _ _
    exact ⟨h, rfl, rfl, by simpa using hreg, fun _ _ => rfl⟩
  | cons e rest ih =>
    intro done h hi hreg hnd hval
    obtain ⟨k, v⟩ := e
    obtain ⟨a, s, hv, hs⟩ := hval (k, v) (List.mem_cons_self _ _)
    have hv1 : v = Value.conv (some a) := hv
    subst hv1
    have hvalrest : ∀ e ∈ rest, ∃ a s, e.2 = Value.conv (some a) ∧ h.convAt (some a) = some s :=
      fun e he => hval e (List.mem_cons_of_mem _ he)
    by_cases hexp : timeAfter now (timeAdd s.LastAccessTime cm.duration) = true
    · have hvisit : cm.gcVisit cm.duration now h (k, Value.conv (some a)) =
          some (cm.Destroy k h).2 := by
        simp [ConversationManager.gcVisit, hs, hexp]
      have hkeep : ¬ cm.keeps now h (k, Value.conv (some a)) = true := by
        simp [ConversationManager.keeps, hs, hexp]
      have hget : mapIndex (cm.registry h) k = Value.conv (some a) := by
        unfold ConversationManager.registry
        rw [hr, hreg]
        exact mapIndex_of_get_some _ _ _ (mapGet_middle done rest k _ hnd)
      have hreg1 : (cm.Destroy k h).2.mapAt (some i) = done ++ rest := by
        rcases destroy_registry cm k h with ⟨_, he⟩ | ⟨hnil, _⟩
        · unfold ConversationManager.registry at he
          rw [hr] at he
          rw [he, hreg]
          exact mapDelete_middle done rest k _ hnd
        · rw [hget] at hnil
          cases hnil
      have hdc := destroy_convs cm k h
      obtain ⟨h1, hloop, hconvs, hmap, hother⟩ := ih done (cm.Destroy k h).2
        (by rw [destroy_maps_length]; exact hi) hreg1 (nodup_drop_middle done rest _ hnd)
        (by
          intro e he
          obtain ⟨a1, s1, he1, he2⟩ := hvalrest e he
          exact ⟨a1, s1, he1, by rw [convAt_congr h _ _ hdc]; exact he2⟩)
      refine ⟨h1, ?_, hconvs.trans hdc, ?_, ?_⟩
      · unfold ConversationManager.gcLoop
        rw [hvisit]
        exact hloop
      · rw [hmap, keeps_congr cm now h _ hdc, List.filter_cons_of_neg hkeep]
      · intro r hne
        rw [hother r hne]
        exact destroy_mapAt_ne cm k h r (by rw [hr]; exact hne)
    · have hvisit : cm.gcVisit cm.duration now h (k, Value.conv (some a)) = some h := by
        simp [ConversationManager.gcVisit, hs, hexp]
      have hkeep : cm.keeps now h (k, Value.conv (some a)) = true := by
        simp [ConversationManager.keeps, hs, hexp]
      have happ : done ++ (k, Value.conv (some a)) :: rest =
          (done ++ [(k, Value.conv (some a))]) ++ rest := by simp
      obtain ⟨h1, hloop, hconvs, hmap, hother⟩ := ih (done ++ [(k, Value.conv (some a))]) h hi
        (by rw [hreg, happ]) (by rw [← happ]; exact hnd) hvalrest
      refine ⟨h1, ?_, hconvs, ?_, hother⟩
      · unfold ConversationManager.gcLoop
        rw [hvisit]
        exact hloop
      · rw [hmap, List.filter_cons_of_pos hkeep]
        simp

theorem gc_spec (cm : ConversationManager) (now : Int) (h : Heap)
    (hnd : (mapKeys (cm.registry h)).Nodup) (hval : cm.SessionsValid h) :
    ∃ h1, cm.GC now h = some h1 ∧ h1.convs = h.convs ∧
      cm.registry h1 = (cm.registry h).filter (cm.keeps now h) ∧
      (∀ r, r ≠ cm.Storage.DataStorage → h1.mapAt r = h.mapAt r) := by
  unfold ConversationManager.GC
  cases hr : cm.Storage.DataStorage with
  | none =>
    exact ⟨h, rfl, rfl, by simp [ConversationManager.registry, hr, Heap.mapAt], fun _ _ => rfl⟩
  | some i =>
    by_cases hi : i < h.maps.length
    · unfold ConversationManager.registry at hnd
      unfold ConversationManager.SessionsValid ConversationManager.registry at hval
      rw [hr] at hnd hval
      obtain ⟨h1, hloop, hconvs, hmap, hother⟩ := gcLoop_spec cm now i hr (h.mapAt (some i)) [] h
        hi (by simp) (by simpa using hnd) hval
      refine ⟨h1, hloop, hconvs, ?_, hother⟩
      unfold ConversationManager.registry
      rw [hr, hmap]
      simp
    · refine ⟨h, ?_, rfl, ?_, fun _ _ => rfl⟩
      · rw [mapAt_of_not_lt h i hi]; rfl
      · simp [ConversationManager.registry, hr, mapAt_of_not_lt h i hi]

theorem keeps_eq (cm : ConversationManager) (now : Int) (h : Heap) (id : String) (a : Nat)
    (s : Conversation) (hs : h.convAt (some a) = some s) :
    cm.keeps now h (id, Value.conv (some a)) = !decide (s.LastAccessTime + cm.duration < now) := by
  simp [ConversationManager.keeps, hs, timeAfter, timeAdd]

theorem cookie_cases (r : Request) (name : String) :
    (∃ v, r.Cookie name = (some v, none)) ∨ r.Cookie name = (none, some Err.ErrNoCookie) := by
  unfold Request.Cookie
  cases r.cookies.find? (fun c => decide (c.1 = name)) with
  | none => exact Or.inr rfl
  | some c => exact Or.inl ⟨c.2, rfl⟩

theorem create_total (cm : ConversationManager) (id : String) (now : Int) (h : Heap)
    (halloc : h.Allocated cm.Storage.DataStorage) (hinv : cm.RegistryInv h) :
    ∃ a s h1, cm.Create id now h = some ((some a, none), h1) ∧ h1.convAt (some a) = some s ∧
      s.Cid = id ∧ mapGet (cm.registry h1) id = some (Value.conv (some a)) := by
  obtain ⟨i, hr, hi⟩ := halloc
  rcases mapIndex_cases (cm.registry h) id with ⟨_, hnil⟩ | hsome
  · unfold ConversationManager.registry at hnil
    rw [hr] at hnil
    obtain ⟨h1, hc, hconvs, _, hreg, _, _⟩ := create_absent cm id now h i hr hi hnil
    refine ⟨h.convs.length, Conversation.mk now id (MemStorage.mk (some h.maps.length)) (60 * 30),
      h1, hc, ?_, rfl, ?_⟩
    · simp [Heap.convAt, hconvs]
    · unfold ConversationManager.registry
      rw [hr, hreg]
      exact mapGet_mapSet_self _ _ _
  · obtain ⟨a, s, hv, hs, hcid⟩ := hinv _ (mem_of_mapGet _ _ _ hsome)
    have hv1 : mapIndex (cm.registry h) id = Value.conv (some a) := hv
    refine ⟨a, s, h, create_found cm id now h (some a) hv1, hs, hcid, ?_⟩
    rw [hsome, hv1]

theorem convAt_setConv_same (h : Heap) (a : Nat) (s c : Conversation)
    (hs : h.convAt (some a) = some s) : (h.setConv a c).convAt (some a) = some c := by
  have hlt : a < h.convs.length := by
    by_contra hc
    have hle : h.convs.length ≤ a := Nat.le_of_not_lt hc
    simp [Heap.convAt, List.getElem?_eq_none hle] at hs
  simp [Heap.convAt, Heap.setConv, List.getElem?_set, hlt]

theorem managerNormalRequest_eq (cm : ConversationManager) (w : List Cookie) (r : Request)
    (gen : String × Option Err) (now1 now2 : Int) (h : Heap) (a : Nat) (s : Conversation)
    (h1 : Heap) (hgen : (r.Cookie CookieName).1 = none → gen.2 = none)
    (hc : cm.Create ((r.Cookie CookieName).1.getD gen.1) now1 h = some ((some a, none), h1))
    (hs : h1.convAt (some a) = some s) :
    cm.ManagerNormalRequest w r gen now1 now2 h =
      some ((some a, (r.Cookie CookieName).2),
        w ++ [Cookie.mk CookieName ((r.Cookie CookieName).1.getD gen.1) "/"
          (now2 + cm.duration) "" cm.MaxAge false false 0 "" []],
        h1.setConv a (Conversation.mk now2 s.Cid s.CSData s.MaxAge)) := by
  obtain ⟨gid, gerr⟩ := gen
  rcases cookie_cases r CookieName with ⟨v, hck⟩ | hck
  · rw [hck] at hc
    simp only [Option.getD_some] at hc
    simp only [ConversationManager.ManagerNormalRequest, hck, hc, hs]
    simp [timeAdd]
  · rw [hck] at hc hgen
    simp only [Option.getD_none] at hc
    have hg : gerr = none := hgen rfl
    subst hg
    simp only [ConversationManager.ManagerNormalRequest, hck, hc, hs]
    simp [timeAdd]

theorem registry_setConv (cm : ConversationManager) (h : Heap) (a : Nat) (c : Conversation) :
    cm.registry (h.setConv a c) = cm.registry h := rfl

theorem gc_lookup (cm : ConversationManager) (now : Int) (h : Heap)
    (hnd : (mapKeys (cm.registry h)).Nodup) (hval : cm.SessionsValid h) :
    ∃ h1, cm.GC now h = some h1 ∧ h1.convs = h.convs ∧
      ∀ id a s, mapGet (cm.registry h) id = some (Value.conv (some a)) →
        h.convAt (some a) = some s →
        mapGet (cm.registry h1) id =
          if s.LastAccessTime + cm.duration < now then none else some (Value.conv (some a)) := by
  obtain ⟨h1, hgc, hconvs, hreg, _⟩ := gc_spec cm now h hnd hval
  refine ⟨h1, hgc, hconvs, ?_⟩
  intro id a s hget hs
  have hf := mapGet_filter_of_nodup (cm.registry h) (cm.keeps now h) id _ hnd hget
  rw [← hreg, keeps_eq cm now h id a s hs] at hf
  rw [hf]
  by_cases hlt : s.LastAccessTime + cm.duration < now
  · simp [hlt]
  · simp [hlt]

theorem cookie_snd_of_none (r : Request) (name : String) (hno : (r.Cookie name).1 = none) :
    (r.Cookie name).2 = some Err.ErrNoCookie := by
  rcases cookie_cases r name with ⟨v, hck⟩ | hck
  · rw [hck] at hno; cases hno
  · rw [hck]

theorem cookie_snd_of_some (r : Request) (name v : String) (hv : (r.Cookie name).1 = some v) :
    (r.Cookie name).2 = none := by
  rcases cookie_cases r name with ⟨v1, hck⟩ | hck
  · rw [hck]
  · rw [hck] at hv; cases hv

theorem convAt_setConv_ne (h : Heap) (a b : Nat) (c : Conversation) (hne : b ≠ a) :
    (h.setConv a c).convAt (some b) = h.convAt (some b) := by
  have hab : ¬ a = b := fun hc => hne hc.symm
  simp [Heap.convAt, Heap.setConv, List.getElem?_set, hab]

theorem set_eq (c : Option Nat) (s : Conversation) (k : String) (v : Value) (h : Heap) (j : Nat)
    (hc : h.convAt c = some s) (hj : s.CSData.DataStorage = some j) (hlt : j < h.maps.length) :
    Conversation.Set c k v h =
      some ((true, none), h.setMap (some j) (mapSet (h.mapAt (some j)) k v)) := by
  simp only [Conversation.Set, hc, store_eq s.CSData k v h j hj hlt]

theorem convAt_append_left (maps maps1 : List GoMap) (convs extra : List Conversation)
    (a : Nat) (s : Conversation) (hs : (Heap.mk maps convs).convAt (some a) = some s) :
    (Heap.mk maps1 (convs ++ extra)).convAt (some a) = some s := by
  have hlt : a < convs.length := by
    by_contra hc
    have hle : convs.length ≤ a := Nat.le_of_not_lt hc
    simp [Heap.convAt, List.getElem?_eq_none hle] at hs
  simp only [Heap.convAt, List.get?_eq_getElem?] at hs ⊢
  rw [List.getElem?_append_left hlt]
  exact hs

theorem convAt_of_convs_append (h h1 : Heap) (extra : List Conversation) (a : Nat)
    (s : Conversation) (hcv : h1.convs = h.convs ++ extra) (hs : h.convAt (some a) = some s) :
    h1.convAt (some a) = some s := by
  obtain ⟨maps, convs⟩ := h
  obtain ⟨maps1, convs1⟩ := h1
  simp only at hcv
  subst hcv
  exact convAt_append_left maps maps1 convs extra a s hs

theorem convAt_new (h1 : Heap) (convs : List Conversation) (c : Conversation)
    (hcv : h1.convs = convs ++ [c]) : h1.convAt (some convs.length) = some c := by
  simp [Heap.convAt, hcv]

theorem set_frame (c : Option Nat) (s : Conversation) (k : String) (v : Value) (h : Heap)
    (j : Nat) (hc : h.convAt c = some s) (hj : s.CSData.DataStorage = some j)
    (hlt : j < h.maps.length) :
    ∃ h1, Conversation.Set c k v h = some ((true, none), h1) ∧ h1.convs = h.convs ∧
      h1.maps.length = h.maps.length ∧
      h1.mapAt (some j) = mapSet (h.mapAt (some j)) k v ∧
      (∀ r, r ≠ some j → h1.mapAt r = h.mapAt r) :=
  ⟨_, set_eq c s k v h j hc hj hlt, rfl, setMap_maps_length _ _ _, mapAt_setMap_same h j _ hlt,
    fun r hr => mapAt_setMap_ne h j _ r hr⟩

theorem get_congr (c : Option Nat) (s : Conversation) (k : String) (h h1 : Heap)
    (hc : h.convAt c = some s) (hcv : h1.convs = h.convs)
    (hm : h1.mapAt s.CSData.DataStorage = h.mapAt s.CSData.DataStorage) :
    Conversation.Get c k h1 = Conversation.Get c k h := by
  have hc1 : h1.convAt c = some s := by rw [convAt_congr h h1 c hcv]; exact hc
  rw [get_eq c s k h1 hc1, get_eq c s k h hc, hm]

/-! ## Preservation of the invariant -/

theorem mem_of_convAt (h : Heap) (a : Nat) (s : Conversation) (hs : h.convAt (some a) = some s) :
    s ∈ h.convs :=
  List.get?_mem hs

theorem mem_mapDelete (m : GoMap) (k : String) (e : String × Value) (he : e ∈ mapDelete m k) :
    e ∈ m ∧ e.1 ≠ k := by
  unfold mapDelete at he
  have hf := List.mem_filter.mp he
  exact ⟨hf.1, by simpa using hf.2⟩

theorem nodup_filter_keys (m : GoMap) (p : String × Value → Bool) (hnd : (mapKeys m).Nodup) :
    (mapKeys (m.filter p)).Nodup := by
  unfold mapKeys at hnd ⊢
  exact List.Nodup.sublist (List.Sublist.map _ (List.filter_sublist m)) hnd

theorem nodup_mapDelete (m : GoMap) (k : String) (hnd : (mapKeys m).Nodup) :
    (mapKeys (mapDelete m k)).Nodup :=
  nodup_filter_keys m _ hnd

theorem nodup_mapSet (m : GoMap) (k : String) (v : Value) (hnd : (mapKeys m).Nodup) :
    (mapKeys (mapSet m k v)).Nodup := by
  have hk : k ∉ mapKeys (mapDelete m k) :=
    not_mem_of_mapGet_eq_none _ _ (mapGet_mapDelete_self m k)
  have hnd1 := nodup_mapDelete m k hnd
  unfold mapSet
  unfold mapKeys at hk hnd1 ⊢
  rw [List.map_cons]
  exact List.nodup_cons.mpr ⟨hk, hnd1⟩

theorem allocated_mono (h h1 : Heap) (r : Option Nat) (hl : h.maps.length ≤ h1.maps.length)
    (ha : h.Allocated r) : h1.Allocated r := by
  obtain ⟨i, hr, hi⟩ := ha
  exact ⟨i, hr, Nat.lt_of_lt_of_le hi hl⟩

theorem create_inv (cm : ConversationManager) (id : String) (now : Int) (h : Heap)
    (hinv : cm.Inv h) :
    ∃ a s h1, cm.Create id now h = some ((some a, none), h1) ∧ h1.convAt (some a) = some s ∧
      s.Cid = id ∧ mapGet (cm.registry h1) id = some (Value.conv (some a)) ∧ cm.Inv h1 := by
  obtain ⟨⟨i, hr, hi⟩, hnd, hreg, hsep⟩ := hinv
  rcases mapIndex_cases (cm.registry h) id with ⟨_, hnil⟩ | hsome
  · have hnil1 : mapIndex (h.mapAt (some i)) id = Value.nil := by
      unfold ConversationManager.registry at hnil
      rw [hr] at hnil
      exact hnil
    obtain ⟨h1, hc, hconvs, hlen, hr1, _, _⟩ := create_absent cm id now h i hr hi hnil1
    have hregeq : cm.registry h1 =
        mapSet (cm.registry h) id (Value.conv (some h.convs.length)) := by
      unfold ConversationManager.registry
      rw [hr, hr1]
    have hnew := convAt_new h1 h.convs _ hconvs
    refine ⟨h.convs.length, _, h1, hc, hnew, rfl, ?_, ⟨i, hr, by omega⟩, ?_, ?_, ?_⟩
    · rw [hregeq]
      exact mapGet_mapSet_self _ _ _
    · rw [hregeq]
      exact nodup_mapSet _ _ _ hnd
    · intro e he
      rw [hregeq] at he
      rcases List.mem_cons.mp he with heq | hin
      · rw [heq]
        exact ⟨h.convs.length, _, rfl, hnew, rfl⟩
      · obtain ⟨a, s, hv, hs, hcid⟩ := hreg e (mem_mapDelete _ _ _ hin).1
        exact ⟨a, s, hv, convAt_of_convs_append h h1 _ a s hconvs hs, hcid⟩
    · intro s hs
      rw [hconvs] at hs
      rcases List.mem_append.mp hs with hold | hnw
      · obtain ⟨hal, hne⟩ := hsep s hold
        exact ⟨allocated_mono h h1 _ (by omega) hal, hne⟩
      · have hse := List.mem_singleton.mp hnw
        rw [hse]
        refine ⟨⟨h.maps.length, rfl, by omega⟩, ?_⟩
        rw [hr]
        intro hc1
        have := Option.some.inj hc1
        omega
  · obtain ⟨a, s, hv, hs, hcid⟩ := hreg _ (mem_of_mapGet _ _ _ hsome)
    have hv1 : mapIndex (cm.registry h) id = Value.conv (some a) := hv
    refine ⟨a, s, h, create_found cm id now h (some a) hv1, hs, hcid, ?_,
      ⟨⟨i, hr, hi⟩, hnd, hreg, hsep⟩⟩
    rw [hsome, hv1]

theorem destroy_inv (cm : ConversationManager) (id : String) (h : Heap) (hinv : cm.Inv h) :
    cm.Inv (cm.Destroy id h).2 := by
  obtain ⟨hal, hnd, hreg, hsep⟩ := hinv
  have hcv := destroy_convs cm id h
  have hlen := destroy_maps_length cm id h
  rcases destroy_registry cm id h with ⟨_, he⟩ | ⟨_, he⟩
  · refine ⟨allocated_mono h _ _ (by omega) hal, ?_, ?_, ?_⟩
    · rw [he]; exact nodup_mapDelete _ _ hnd
    · intro e hin
      rw [he] at hin
      obtain ⟨a, s, hv, hs, hcid⟩ := hreg e (mem_mapDelete _ _ _ hin).1
      exact ⟨a, s, hv, (convAt_congr h _ _ hcv).trans hs, hcid⟩
    · intro s hs
      rw [hcv] at hs
      obtain ⟨hsal, hne⟩ := hsep s hs
      exact ⟨allocated_mono h _ _ (by omega) hsal, hne⟩
  · rw [he]
    exact ⟨hal, hnd, hreg, hsep⟩

theorem gcLoop_maps_length (cm : ConversationManager) (d now : Int) :
    ∀ (l : GoMap) (h h1 : Heap), cm.gcLoop d now l h = some h1 →
      h1.maps.length = h.maps.length := by
  intro l
  induction l with
  | nil =>
    intro h h1 hl
    have : h = h1 := Option.some.inj hl
    rw [this]
  | cons e rest ih =>
    intro h h1 hl
    unfold ConversationManager.gcLoop at hl
    cases hv : cm.gcVisit d now h e with
    | none => rw [hv] at hl; cases hl
    | some h2 =>
      rw [hv] at hl
      have h21 := ih h2 h1 hl
      have h2h : h2.maps.length = h.maps.length := by
        unfold ConversationManager.gcVisit at hv
        split at hv
        · split at hv
          · cases hv
          · dsimp only at hv
            split at hv
            · have hh := Option.some.inj hv
              rw [← hh]
              exact destroy_maps_length cm e.1 h
            · have hh := Option.some.inj hv
              rw [← hh]
        · have hh := Option.some.inj hv
          rw [← hh]
      omega

theorem sessionsValid_of_registryInv (cm : ConversationManager) (h : Heap)
    (hreg : cm.RegistryInv h) : cm.SessionsValid h := by
  intro e he
  obtain ⟨a, s, hv, hs, _⟩ := hreg e he
  exact ⟨a, s, hv, hs⟩

theorem gc_inv (cm : ConversationManager) (now : Int) (h : Heap) (hinv : cm.Inv h) :
    ∃ h1, cm.GC now h = some h1 ∧ cm.Inv h1 := by
  obtain ⟨hal, hnd, hreg, hsep⟩ := hinv
  obtain ⟨h1, hgc, hcv, hr1, _⟩ :=
    gc_spec cm now h hnd (sessionsValid_of_registryInv cm h hreg)
  have hlen : h1.maps.length = h.maps.length := gcLoop_maps_length cm _ now _ h h1 hgc
  refine ⟨h1, hgc, allocated_mono h h1 _ (by omega) hal, ?_, ?_, ?_⟩
  · rw [hr1]; exact nodup_filter_keys _ _ hnd
  · intro e hin
    rw [hr1] at hin
    obtain ⟨a, s, hv, hs, hcid⟩ := hreg e (List.mem_filter.mp hin).1
    exact ⟨a, s, hv, (convAt_congr h h1 _ hcv).trans hs, hcid⟩
  · intro s hs
    rw [hcv] at hs
    obtain ⟨hsal, hne⟩ := hsep s hs
    exact ⟨allocated_mono h h1 _ (by omega) hsal, hne⟩

theorem setConv_inv (cm : ConversationManager) (h : Heap) (a : Nat) (s c : Conversation)
    (hinv : cm.Inv h) (hs : h.convAt (some a) = some s) (hcid : c.Cid = s.Cid)
    (hdata : c.CSData = s.CSData) : cm.Inv (h.setConv a c) := by
  obtain ⟨hal, hnd, hreg, hsep⟩ := hinv
  refine ⟨hal, hnd, ?_, ?_⟩
  · intro e he
    obtain ⟨a1, s1, hv, hs1, hc1⟩ := hreg e he
    by_cases ha : a1 = a
    · subst ha
      have hss : s1 = s := Option.some.inj (hs1.symm.trans hs)
      refine ⟨a1, c, hv, convAt_setConv_same h a1 s c hs, ?_⟩
      rw [hcid, ← hss]
      exact hc1
    · exact ⟨a1, s1, hv, (convAt_setConv_ne h a a1 c ha).trans hs1, hc1⟩
  · intro x hx
    rcases List.mem_or_eq_of_mem_set hx with hold | hnew
    · exact hsep x hold
    · rw [hnew, hdata]
      exact hsep s (mem_of_convAt h a s hs)

theorem managerNormalRequest_gen_error (cm : ConversationManager) (w : List Cookie)
    (r : Request) (gen : String × Option Err) (now1 now2 : Int) (h : Heap) (e : Err)
    (hno : (r.Cookie CookieName).1 = none) (hgen : gen.2 = some e) :
    cm.ManagerNormalRequest w r gen now1 now2 h = some ((none, some e), w, h) := by
  obtain ⟨gid, gerr⟩ := gen
  have hg : gerr = some e := hgen
  subst hg
  rcases cookie_cases r CookieName with ⟨v, hck⟩ | hck
  · rw [hck] at hno; cases hno
  · simp [ConversationManager.ManagerNormalRequest, hck]

theorem managerNormalRequest_inv (cm : ConversationManager) (w : List Cookie) (r : Request)
    (gen : String × Option Err) (now1 now2 : Int) (h : Heap) (hinv : cm.Inv h) :
    ∃ res, cm.ManagerNormalRequest w r gen now1 now2 h = some res ∧ cm.Inv res.2.2 := by
  by_cases hab : (r.Cookie CookieName).1 = none ∧ ∃ e, gen.2 = some e
  · obtain ⟨hno, e, he⟩ := hab
    exact ⟨_, managerNormalRequest_gen_error cm w r gen now1 now2 h e hno he, hinv⟩
  · have hgen : (r.Cookie CookieName).1 = none → gen.2 = none := by
      intro hno
      cases hg : gen.2 with
      | none => rfl
      | some e => exact absurd ⟨hno, e, hg⟩ hab
    obtain ⟨a, s, h1, hc, hs, _, _, hinv1⟩ :=
      create_inv cm ((r.Cookie CookieName).1.getD gen.1) now1 h hinv
    exact ⟨_, managerNormalRequest_eq cm w r gen now1 now2 h a s h1 hgen hc hs,
      setConv_inv cm h1 a s _ hinv1 hs rfl rfl⟩

theorem set_inv (cm : ConversationManager) (c : Option Nat) (s : Conversation) (k : String)
    (v : Value) (h : Heap) (hinv : cm.Inv h) (hc : h.convAt c = some s) :
    ∃ h1, Conversation.Set c k v h = some ((true, none), h1) ∧ cm.Inv h1 := by
  obtain ⟨hal, hnd, hreg, hsep⟩ := hinv
  have hmem : s ∈ h.convs := by
    cases c with
    | none => cases hc
    | some a => exact mem_of_convAt h a s hc
  obtain ⟨⟨j, hj, hlt⟩, hne⟩ := hsep s hmem
  obtain ⟨h1, hset, hcv, hlen, _, hoth⟩ := set_frame c s k v h j hc hj hlt
  have hregeq : cm.registry h1 = cm.registry h := by
    unfold ConversationManager.registry
    exact hoth _ (fun hc1 => hne (hj.trans hc1.symm))
  refine ⟨h1, hset, allocated_mono h h1 _ (by omega) hal, by rw [hregeq]; exact hnd, ?_, ?_⟩
  · intro e he
    rw [hregeq] at he
    obtain ⟨a, s1, hv, hs1, hc1⟩ := hreg e he
    exact ⟨a, s1, hv, (convAt_congr h h1 _ hcv).trans hs1, hc1⟩
  · intro x hx
    rw [hcv] at hx
    obtain ⟨hxal, hxne⟩ := hsep x hx
    exact ⟨allocated_mono h h1 _ (by omega) hxal, hxne⟩

theorem getConversation_inv (cm : ConversationManager) (id : String) (h : Heap)
    (hreg : cm.RegistryInv h) : ∃ p, cm.GetConversation id h = some (p, h) := by
  rcases mapIndex_cases (cm.registry h) id with ⟨_, hnil⟩ | hsome
  · exact ⟨none, getConversation_nil cm id h hnil⟩
  · obtain ⟨a, s, hv, _, _⟩ := hreg _ (mem_of_mapGet _ _ _ hsome)
    exact ⟨some a, getConversation_found cm id h (some a) hv⟩

theorem step_inv (cm : ConversationManager) (op : Op) (h : Heap) (hinv : cm.Inv h) :
    (∀ h1, cm.step op h = some h1 → cm.Inv h1) ∧
    (op.onSession h → ∃ h1, cm.step op h = some h1) := by
  cases op with
  | create cid now =>
    obtain ⟨a, s, h1, hc, _, _, _, hinv1⟩ := create_inv cm cid now h hinv
    have hst : cm.step (Op.create cid now) h = some h1 := by
      simp [ConversationManager.step, hc]
    refine ⟨fun h2 hs => ?_, fun _ => ⟨h1, hst⟩⟩
    rw [hst] at hs
    rw [← Option.some.inj hs]
    exact hinv1
  | destroy cid =>
    refine ⟨fun h2 hs => ?_, fun _ => ⟨_, rfl⟩⟩
    have hs1 : some (cm.Destroy cid h).2 = some h2 := hs
    rw [← Option.some.inj hs1]
    exact destroy_inv cm cid h hinv
  | getConversation cid =>
    obtain ⟨p, hp⟩ := getConversation_inv cm cid h hinv.2.2.1
    have hst : cm.step (Op.getConversation cid) h = some h := by
      simp [ConversationManager.step, hp]
    refine ⟨fun h2 hs => ?_, fun _ => ⟨h, hst⟩⟩
    rw [hst] at hs
    rw [← Option.some.inj hs]
    exact hinv
  | gc now =>
    obtain ⟨h1, hgc, hinv1⟩ := gc_inv cm now h hinv
    have hst : cm.step (Op.gc now) h = some h1 := hgc
    refine ⟨fun h2 hs => ?_, fun _ => ⟨h1, hst⟩⟩
    rw [hst] at hs
    rw [← Option.some.inj hs]
    exact hinv1
  | managerNormalRequest r gen now1 now2 =>
    obtain ⟨res, hres, hinv1⟩ := managerNormalRequest_inv cm [] r gen now1 now2 h hinv
    have hst : cm.step (Op.managerNormalRequest r gen now1 now2) h = some res.2.2 := by
      simp [ConversationManager.step, hres]
    refine ⟨fun h2 hs => ?_, fun _ => ⟨_, hst⟩⟩
    rw [hst] at hs
    rw [← Option.some.inj hs]
    exact hinv1
  | get c key =>
    refine ⟨fun h2 hs => ?_, fun hon => ?_⟩
    · cases hg : Conversation.Get c key h with
      | none => simp [ConversationManager.step, hg] at hs
      | some x =>
        simp only [ConversationManager.step, hg, Option.map_some'] at hs
        rw [← Option.some.inj hs]
        exact hinv
    · obtain ⟨s, hs⟩ := hon
      exact ⟨h, by simp [ConversationManager.step, get_eq c s key h hs]⟩
  | set c key value =>
    refine ⟨fun h2 hs => ?_, fun hon => ?_⟩
    · cases hc : h.convAt c with
      | none => simp [ConversationManager.step, Conversation.Set, hc] at hs
      | some s =>
        obtain ⟨h1, hset, hinv1⟩ := set_inv cm c s key value h hinv hc
        simp only [ConversationManager.step, hset, Option.map_some'] at hs
        rw [← Option.some.inj hs]
        exact hinv1
    · obtain ⟨s, hs⟩ := hon
      obtain ⟨h1, hset, _⟩ := set_inv cm c s key value h hinv hs
      exact ⟨h1, by simp [ConversationManager.step, hset]⟩

theorem run_inv (cm : ConversationManager) :
    ∀ (ops : List Op) (h h1 : Heap), cm.Inv h → cm.run ops h = some h1 → cm.Inv h1 := by
  intro ops
  induction ops with
  | nil =>
    intro h h1 hinv hr
    have hh : h = h1 := Option.some.inj hr
    rw [← hh]
    exact hinv
  | cons op rest ih =>
    intro h h1 hinv hr
    unfold ConversationManager.run at hr
    cases hst : cm.step op h with
    | none => rw [hst] at hr; cases hr
    | some h2 =>
      rw [hst] at hr
      exact ih h2 h1 ((step_inv cm op h hinv).1 h2 hst) hr

theorem inv_of_empty (cm : ConversationManager) (h : Heap)
    (halloc : h.Allocated cm.Storage.DataStorage) (hempty : cm.registry h = [])
    (hnone : h.convs = []) : cm.Inv h := by
  refine ⟨halloc, ?_, ?_, ?_⟩
  · rw [hempty]; exact List.nodup_nil
  · intro e he
    rw [hempty] at he
    cases he
  · intro s hs
    rw [hnone] at hs
    cases hs

/-! ## `ManagerLogin` on the package variable -/

theorem managerLogin_eq (m Cmgr : ConversationManager) (loginUser : Value) (w : List Cookie)
    (r : Request) (gen : String × Option Err) (now now1 : Int) (h : Heap)
    (found : Option Nat) (a : Nat) (s : Conversation) (h1 : Heap) (j : Nat)
    (hget : Cmgr.GetConversation ((r.Cookie CookieName).1.getD gen.1) h = some (found, h))
    (hres : (found = some a ∧ h1 = h) ∨ (found = none ∧
      Cmgr.Create ((r.Cookie CookieName).1.getD gen.1) now1 h = some ((some a, none), h1)))
    (hs : h1.convAt (some a) = some s) (hj : s.CSData.DataStorage = some j)
    (hlt : j < h1.maps.length) :
    m.ManagerLogin Cmgr loginUser w r gen now now1 h =
      some (w ++ [Cookie.mk CookieName ((r.Cookie CookieName).1.getD gen.1) "/"
          (now + Cmgr.duration) "" 0 false false 0 "" []],
        (h1.setConv a (Conversation.mk now s.Cid s.CSData s.MaxAge)).setMap (some j)
          (mapSet ((h1.setConv a (Conversation.mk now s.Cid s.CSData s.MaxAge)).mapAt (some j))
            "user" loginUser)) := by
  have hs2 := convAt_setConv_same h1 a s (Conversation.mk now s.Cid s.CSData s.MaxAge) hs
  have hset := set_eq (some a) _ "user" loginUser
    (h1.setConv a (Conversation.mk now s.Cid s.CSData s.MaxAge)) j hs2 hj hlt
  cases hck : (r.Cookie CookieName).1 with
  | none =>
    rw [hck] at hget hres
    simp only [Option.getD_none] at hget hres
    rcases hres with ⟨hf, hh⟩ | ⟨hf, hc⟩
    · subst hf
      subst hh
      simp only [ConversationManager.ManagerLogin, hck, UUID, hget, hs, hset]
      simp [timeAdd]
    · subst hf
      simp only [ConversationManager.ManagerLogin, hck, UUID, hget, hc, hs, hset]
      simp [timeAdd]
  | some v =>
    rw [hck] at hget hres
    simp only [Option.getD_some] at hget hres
    rcases hres with ⟨hf, hh⟩ | ⟨hf, hc⟩
    · subst hf
      subst hh
      simp only [ConversationManager.ManagerLogin, hck, hget, hs, hset]
      simp [timeAdd]
    · subst hf
      simp only [ConversationManager.ManagerLogin, hck, hget, hc, hs, hset]
      simp [timeAdd]

theorem managerLogin_tail (Cmgr : ConversationManager) (loginUser : Value) (now : Int)
    (h1 : Heap) (a : Nat) (s : Conversation) (hinv : Cmgr.Inv h1)
    (hs : h1.convAt (some a) = some s) :
    ∃ j h3, s.CSData.DataStorage = some j ∧ j < h1.maps.length ∧
      h3 = (h1.setConv a (Conversation.mk now s.Cid s.CSData s.MaxAge)).setMap (some j)
        (mapSet ((h1.setConv a (Conversation.mk now s.Cid s.CSData s.MaxAge)).mapAt (some j))
          "user" loginUser) ∧
      Cmgr.Inv h3 ∧ Cmgr.registry h3 = Cmgr.registry h1 ∧
      h3.convAt (some a) = some (Conversation.mk now s.Cid s.CSData s.MaxAge) ∧
      Conversation.Get (some a) "user" h3 = some (loginUser, none) ∧
      (∀ k, k ≠ "user" →
        Conversation.Get (some a) k h3 = some (mapIndex (h1.mapAt (some j)) k, none)) := by
  obtain ⟨⟨j, hj, hlt⟩, hne⟩ := hinv.2.2.2 s (mem_of_convAt h1 a s hs)
  have hs2 := convAt_setConv_same h1 a s (Conversation.mk now s.Cid s.CSData s.MaxAge) hs
  have hinv2 := setConv_inv Cmgr h1 a s (Conversation.mk now s.Cid s.CSData s.MaxAge) hinv hs
    rfl rfl
  obtain ⟨hx, hsetx, hinvx⟩ := set_inv Cmgr (some a) _ "user" loginUser _ hinv2 hs2
  have hset := set_eq (some a) _ "user" loginUser
    (h1.setConv a (Conversation.mk now s.Cid s.CSData s.MaxAge)) j hs2 hj hlt
  rw [hset] at hsetx
  have hxe := (Prod.mk.inj (Option.some.inj hsetx)).2
  have hlt2 : j < (h1.setConv a (Conversation.mk now s.Cid s.CSData s.MaxAge)).maps.length := hlt
  have hs3 : ((h1.setConv a (Conversation.mk now s.Cid s.CSData s.MaxAge)).setMap (some j)
      (mapSet ((h1.setConv a (Conversation.mk now s.Cid s.CSData s.MaxAge)).mapAt (some j))
        "user" loginUser)).convAt (some a) =
      some (Conversation.mk now s.Cid s.CSData s.MaxAge) := hs2
  refine ⟨j, _, hj, hlt, rfl, by rw [hxe]; exact hinvx, ?_, hs3, ?_, ?_⟩
  · unfold ConversationManager.registry
    rw [mapAt_setMap_ne _ j _ _ (fun hc => hne (hj.trans hc.symm))]
    rfl
  · rw [get_eq _ _ "user" _ hs3]
    show some (mapIndex (Heap.mapAt _ s.CSData.DataStorage) "user", none) = _
    rw [hj, mapAt_setMap_same _ j _ hlt2,
      mapIndex_of_get_some _ _ _ (mapGet_mapSet_self _ _ _)]
  · intro k hk
    rw [get_eq _ _ k _ hs3]
    show some (mapIndex (Heap.mapAt _ s.CSData.DataStorage) k, none) = _
    rw [hj, mapAt_setMap_same _ j _ hlt2]
    simp only [mapIndex, mapGet_mapSet_ne _ "user" k loginUser hk]
    rfl

theorem managerLogin_spec (m Cmgr : ConversationManager) (loginUser : Value) (w : List Cookie)
    (r : Request) (gen : String × Option Err) (now now1 : Int) (h : Heap)
    (hinv : Cmgr.Inv h) :
    ∃ a s h1, m.ManagerLogin Cmgr loginUser w r gen now now1 h =
        some (w ++ [Cookie.mk CookieName ((r.Cookie CookieName).1.getD gen.1) "/"
          (now + Cmgr.duration) "" 0 false false 0 "" []], h1) ∧
      Cmgr.Inv h1 ∧
      mapGet (Cmgr.registry h1) ((r.Cookie CookieName).1.getD gen.1) =
        some (Value.conv (some a)) ∧
      h1.convAt (some a) = some s ∧ s.LastAccessTime = now ∧
      s.Cid = (r.Cookie CookieName).1.getD gen.1 ∧
      Conversation.Get (some a) "user" h1 = some (loginUser, none) ∧
      (∀ a0, mapGet (Cmgr.registry h) ((r.Cookie CookieName).1.getD gen.1) =
          some (Value.conv (some a0)) →
        a = a0 ∧ ∀ k, k ≠ "user" →
          Conversation.Get (some a) k h1 = Conversation.Get (some a) k h) ∧
      (mapGet (Cmgr.registry h) ((r.Cookie CookieName).1.getD gen.1) = none →
        h.convAt (some a) = none ∧ ∀ k, k ≠ "user" →
          Conversation.Get (some a) k h1 = some (Value.nil, none)) := by
  obtain ⟨i, hr, hi⟩ := hinv.1
  have hreg := hinv.2.2.1
  rcases mapIndex_cases (Cmgr.registry h) ((r.Cookie CookieName).1.getD gen.1) with
    ⟨hnone, hnil⟩ | hsome
  · have hnil1 : mapIndex (h.mapAt (some i)) ((r.Cookie CookieName).1.getD gen.1) =
        Value.nil := by
      unfold ConversationManager.registry at hnil
      rw [hr] at hnil
      exact hnil
    obtain ⟨h1, hc, hconvs, hlen, hr1, hnew, _⟩ :=
      create_absent Cmgr ((r.Cookie CookieName).1.getD gen.1) now1 h i hr hi hnil1
    obtain ⟨a1, s1, h11, hc1, _, _, hreg1, hinv1⟩ :=
      create_inv Cmgr ((r.Cookie CookieName).1.getD gen.1) now1 h hinv
    rw [hc] at hc1
    have hpair := Prod.mk.inj (Option.some.inj hc1)
    have ha1 : h.convs.length = a1 := Option.some.inj (Prod.mk.inj hpair.1).1
    have hh1 : h1 = h11 := hpair.2
    subst ha1
    subst hh1
    have hs := convAt_new h1 h.convs _ hconvs
    obtain ⟨j, h3, hj, hlt, hh3, hinv3, hreg3, hs3, hget3, hoth3⟩ :=
      managerLogin_tail Cmgr loginUser now h1 h.convs.length _ hinv1 hs
    have hjn : h.maps.length = j := Option.some.inj hj
    subst hjn
    have hlogin := managerLogin_eq m Cmgr loginUser w r gen now now1 h none h.convs.length _ h1
      h.maps.length (getConversation_nil Cmgr _ h hnil) (Or.inr ⟨rfl, hc⟩) hs hj hlt
    rw [← hh3] at hlogin
    refine ⟨h.convs.length, _, h3, hlogin, hinv3, by rw [hreg3]; exact hreg1, hs3, rfl, rfl,
      hget3, ?_, ?_⟩
    · intro a0 ha0
      rw [hnone] at ha0
      cases ha0
    · intro _
      refine ⟨by simp [Heap.convAt], ?_⟩
      intro k hk
      rw [hoth3 k hk, hnew]
      rfl
  · obtain ⟨a, s, hv, hs, hcid⟩ := hreg _ (mem_of_mapGet _ _ _ hsome)
    have hv1 : mapIndex (Cmgr.registry h) ((r.Cookie CookieName).1.getD gen.1) =
        Value.conv (some a) := hv
    obtain ⟨j, h3, hj, hlt, hh3, hinv3, hreg3, hs3, hget3, hoth3⟩ :=
      managerLogin_tail Cmgr loginUser now h a s hinv hs
    have hlogin := managerLogin_eq m Cmgr loginUser w r gen now now1 h (some a) a s h j
      (getConversation_found Cmgr _ h (some a) hv1) (Or.inl ⟨rfl, rfl⟩) hs hj hlt
    rw [← hh3] at hlogin
    refine ⟨a, _, h3, hlogin, hinv3, ?_, hs3, rfl, hcid, hget3, ?_, ?_⟩
    · rw [hreg3, hsome, hv1]
    · intro a0 ha0
      rw [hsome, hv1] at ha0
      have haa : a = a0 := by
        injection ha0 with h1
        injection h1 with h2
        injection h2
      refine ⟨haa, ?_⟩
      intro k hk
      rw [hoth3 k hk, get_eq _ _ k h hs, hj]
    · intro hnone
      rw [hsome] at hnone
      cases hnone

/-! ## Verified properties -/

/-- C1: Create idempotence.  For a manager whose registry map is allocated and
holds only sessions, `Create(id)` called twice in sequence returns the same
pointer both times with a nil error, and the second call leaves the whole heap
(the registry and every field of every session) unchanged. -/
theorem create_idempotent (cm : ConversationManager) (id : String) (t1 t2 : Int) (h : Heap)
    (halloc : h.Allocated cm.Storage.DataStorage) (hsess : cm.HoldsOnlySessions h) :
    ∃ p h1, cm.Create id t1 h = some ((p, none), h1) ∧
      cm.Create id t2 h1 = some ((p, none), h1) := by
  obtain ⟨i, hr, hi⟩ := halloc
  rcases mapIndex_cases (cm.registry h) id with ⟨_, hnil⟩ | hsome
  · unfold ConversationManager.registry at hnil
    rw [hr] at hnil
    obtain ⟨h1, hc, _, _, hreg, _, _⟩ := create_absent cm id t1 h i hr hi hnil
    refine ⟨some h.convs.length, h1, hc, ?_⟩
    apply create_found
    rw [hr, hreg]
    exact mapIndex_of_get_some _ _ _ (mapGet_mapSet_self _ _ _)
  · obtain ⟨q, hq⟩ := hsess _ (mem_of_mapGet _ _ _ hsome)
    have hv : mapIndex (h.mapAt cm.Storage.DataStorage) id = Value.conv q := hq
    exact ⟨q, h, create_found cm id t1 h q hv, create_found cm id t2 h q hv⟩

/-- Witness for C1: two calls of `Create("a")` on an empty allocated registry. -/
theorem create_idempotent_witness :
    (Heap.mk [[]] []).Allocated (ConversationManager.mk "goodsCool" 1800
      (MemStorage.mk (some 0))).Storage.DataStorage ∧
    (ConversationManager.mk "goodsCool" 1800 (MemStorage.mk (some 0))).HoldsOnlySessions
      (Heap.mk [[]] []) ∧
    ∃ p h1, (ConversationManager.mk "goodsCool" 1800 (MemStorage.mk (some 0))).Create "a" 5
        (Heap.mk [[]] []) = some ((p, none), h1) ∧
      (ConversationManager.mk "goodsCool" 1800 (MemStorage.mk (some 0))).Create "a" 9 h1 =
        some ((p, none), h1) :=
  ⟨⟨0, rfl, by decide⟩, fun _ he => absurd he (List.not_mem_nil _),
    create_idempotent (ConversationManager.mk "goodsCool" 1800 (MemStorage.mk (some 0))) "a" 5 9
      (Heap.mk [[]] []) ⟨0, rfl, by decide⟩ (fun _ he => absurd he (List.not_mem_nil _))⟩

/-- Counterexample to C2 as stated: a manager configured with `MaxAge = 5`
creates a session whose `MaxAge` is 1800, not the manager's value. -/
theorem create_maxAge_counterexample :
    ∃ a s h1, (ConversationManager.mk "goodsCool" 5 (MemStorage.mk (some 0))).Create "a" 7
        (Heap.mk [[]] []) = some ((some a, none), h1) ∧
      h1.convAt (some a) = some s ∧ s.MaxAge = 1800 ∧
      s.MaxAge ≠ (ConversationManager.mk "goodsCool" 5 (MemStorage.mk (some 0))).MaxAge :=
  ⟨0, Conversation.mk 7 "a" (MemStorage.mk (some 1)) 1800,
    Heap.mk [[("a", Value.conv (some 0))], []]
      [Conversation.mk 7 "a" (MemStorage.mk (some 1)) 1800],
    by decide, by decide, by decide, by decide⟩

/-- C2 (amended): for a manager whose registry map is allocated and an `id` with
no entry in it, `Create(id)` at time `now` returns a nil error and a pointer to a
newly allocated session with `Cid = id`, `LastAccessTime = now`, `MaxAge = 1800`
(the literal `60 * 30`, which is the manager's `MaxAge` exactly when that is
1800) and an allocated, empty private store; afterwards the registry maps `id`
to exactly that pointer. -/
theorem create_new_session (cm : ConversationManager) (id : String) (now : Int) (h : Heap)
    (halloc : h.Allocated cm.Storage.DataStorage)
    (habs : mapGet (cm.registry h) id = none) :
    ∃ a s h1, cm.Create id now h = some ((some a, none), h1) ∧
      h.convAt (some a) = none ∧ h1.convAt (some a) = some s ∧
      s.Cid = id ∧ s.LastAccessTime = now ∧ s.MaxAge = 1800 ∧
      (cm.MaxAge = 1800 → s.MaxAge = cm.MaxAge) ∧
      h1.Allocated s.CSData.DataStorage ∧ h1.mapAt s.CSData.DataStorage = [] ∧
      mapGet (cm.registry h1) id = some (Value.conv (some a)) := by
  obtain ⟨i, hr, hi⟩ := halloc
  have hnil : mapIndex (h.mapAt (some i)) id = Value.nil := by
    unfold ConversationManager.registry at habs
    rw [hr] at habs
    exact mapIndex_of_get_none _ _ habs
  obtain ⟨h1, hc, hconvs, hlen, hreg, hnew, _⟩ := create_absent cm id now h i hr hi hnil
  refine ⟨h.convs.length, Conversation.mk now id (MemStorage.mk (some h.maps.length)) (60 * 30),
    h1, hc, ?_, ?_, rfl, rfl, by norm_num, ?_, ⟨h.maps.length, rfl, by omega⟩, hnew, ?_⟩
  · simp [Heap.convAt]
  · simp [Heap.convAt, hconvs]
  · intro hm; rw [hm]; norm_num
  · unfold ConversationManager.registry
    rw [hr, hreg]
    exact mapGet_mapSet_self _ _ _

/-- Witness for C2 (amended): `Create("a")` on an empty allocated registry. -/
theorem create_new_session_witness :
    (Heap.mk [[]] []).Allocated (ConversationManager.mk "goodsCool" 5
      (MemStorage.mk (some 0))).Storage.DataStorage ∧
    mapGet ((ConversationManager.mk "goodsCool" 5 (MemStorage.mk (some 0))).registry
      (Heap.mk [[]] [])) "a" = none ∧
    ∃ a s h1, (ConversationManager.mk "goodsCool" 5 (MemStorage.mk (some 0))).Create "a" 7
        (Heap.mk [[]] []) = some ((some a, none), h1) ∧
      h1.convAt (some a) = some s ∧ s.LastAccessTime = 7 ∧ s.MaxAge = 1800 :=
  ⟨⟨0, rfl, by decide⟩, rfl,
    (create_new_session (ConversationManager.mk "goodsCool" 5 (MemStorage.mk (some 0))) "a" 7
      (Heap.mk [[]] []) ⟨0, rfl, by decide⟩ rfl).imp (fun _ ha => ha.imp (fun _ hs =>
        hs.imp (fun _ hh => ⟨hh.1, hh.2.2.1, hh.2.2.2.2.1, hh.2.2.2.2.2.1⟩)))⟩


/-- C3: Destroy removes reachability.  After `Destroy(id)` the call
`GetConversation(id)` returns nil (and changes nothing); when the registry map
is allocated, a subsequent `Create(id)` at time `now` returns a pointer that
was not allocated before (so it is not the destroyed session), to a session
with `Cid = id`, `LastAccessTime = now` and a new empty private store, on which
`Get` of every key returns nil. -/
theorem destroy_then_create (cm : ConversationManager) (id : String) (now : Int) (h : Heap)
    (halloc : h.Allocated cm.Storage.DataStorage) :
    cm.GetConversation id (cm.Destroy id h).2 = some (none, (cm.Destroy id h).2) ∧
    ∃ a s h2, cm.Create id now (cm.Destroy id h).2 = some ((some a, none), h2) ∧
      h.convAt (some a) = none ∧ h2.convAt (some a) = some s ∧
      s.Cid = id ∧ s.LastAccessTime = now ∧
      ¬ h.Allocated s.CSData.DataStorage ∧ h2.Allocated s.CSData.DataStorage ∧
      h2.mapAt s.CSData.DataStorage = [] ∧
      (∀ k, Conversation.Get (some a) k h2 = some (Value.nil, none)) := by
  obtain ⟨i, hr, hi⟩ := halloc
  have hnil := destroy_mapIndex_self cm id h
  have hconvs := destroy_convs cm id h
  have hlen := destroy_maps_length cm id h
  refine ⟨getConversation_nil cm id _ hnil, ?_⟩
  have hi1 : i < (cm.Destroy id h).2.maps.length := by rw [hlen]; exact hi
  have hnil1 : mapIndex ((cm.Destroy id h).2.mapAt (some i)) id = Value.nil := by
    unfold ConversationManager.registry at hnil
    rw [hr] at hnil
    exact hnil
  obtain ⟨h2, hc, hcv, hl2, _, hnew, _⟩ :=
    create_absent cm id now (cm.Destroy id h).2 i hr hi1 hnil1
  rw [hconvs] at hc hcv
  rw [hlen] at hcv hl2 hnew
  have hs : h2.convAt (some h.convs.length) =
      some (Conversation.mk now id (MemStorage.mk (some h.maps.length)) (60 * 30)) := by
    simp [Heap.convAt, hcv]
  refine ⟨h.convs.length, Conversation.mk now id (MemStorage.mk (some h.maps.length)) (60 * 30),
    h2, hc, ?_, hs, rfl, rfl, ?_, ⟨h.maps.length, rfl, by omega⟩, hnew, ?_⟩
  · simp [Heap.convAt]
  · rintro ⟨j, hj, hjlt⟩
    have hj1 : h.maps.length = j := Option.some.inj hj
    omega
  · intro k
    rw [get_eq _ _ k h2 hs]
    show some (mapIndex (h2.mapAt (some h.maps.length)) k, none) = _
    rw [hnew]
    rfl

/-- Witness for C3: destroy and re-create the session registered under "a". -/
theorem destroy_then_create_witness :
    (Heap.mk [[("a", Value.conv (some 0))], [("user", Value.str "bob")]]
      [Conversation.mk 3 "a" (MemStorage.mk (some 1)) 1800]).Allocated
      (ConversationManager.mk "goodsCool" 1800 (MemStorage.mk (some 0))).Storage.DataStorage ∧
    ∃ a s h2, (ConversationManager.mk "goodsCool" 1800 (MemStorage.mk (some 0))).Create "a" 50
        ((ConversationManager.mk "goodsCool" 1800 (MemStorage.mk (some 0))).Destroy "a"
          (Heap.mk [[("a", Value.conv (some 0))], [("user", Value.str "bob")]]
            [Conversation.mk 3 "a" (MemStorage.mk (some 1)) 1800])).2 =
        some ((some a, none), h2) ∧
      h2.convAt (some a) = some s ∧ s.LastAccessTime = 50 ∧
      Conversation.Get (some a) "user" h2 = some (Value.nil, none) :=
  ⟨⟨0, rfl, by decide⟩,
    (destroy_then_create (ConversationManager.mk "goodsCool" 1800 (MemStorage.mk (some 0))) "a" 50
      (Heap.mk [[("a", Value.conv (some 0))], [("user", Value.str "bob")]]
        [Conversation.mk 3 "a" (MemStorage.mk (some 1)) 1800]) ⟨0, rfl, by decide⟩).2.imp
      (fun _ ha => ha.imp (fun _ hs => hs.imp (fun _ hh =>
        ⟨hh.1, hh.2.2.1, hh.2.2.2.2.1, hh.2.2.2.2.2.2.2.2 "user"⟩)))⟩

/-- Counterexample to C4 as stated, in two runs.  First: the manager has
`MaxAge = 1`, the session registered under "a" has `MaxAge = 1800` and was last
accessed at instant 0; the scan at instant 2 s removes it although 2 s is not
later than its last access plus its own time-to-live of 1800 s.  Second:
manager and session both have `MaxAge = 9223372037`, for which
`MaxAge * 10^9` overflows `int64`; the scan at instant 1 ns removes the
session last accessed at instant 0. -/
theorem gc_session_ttl_counterexample :
    (∃ s h1,
      (Heap.mk [[("a", Value.conv (some 0))], []]
        [Conversation.mk 0 "a" (MemStorage.mk (some 1)) 1800]).convAt (some 0) = some s ∧
      (ConversationManager.mk "goodsCool" 1 (MemStorage.mk (some 0))).GC 2000000000
        (Heap.mk [[("a", Value.conv (some 0))], []]
          [Conversation.mk 0 "a" (MemStorage.mk (some 1)) 1800]) = some h1 ∧
      mapGet ((ConversationManager.mk "goodsCool" 1 (MemStorage.mk (some 0))).registry h1) "a" =
        none ∧
      ¬ (s.LastAccessTime + s.MaxAge * 1000000000 < 2000000000)) ∧
    (∃ s h1,
      (Heap.mk [[("a", Value.conv (some 0))], []]
        [Conversation.mk 0 "a" (MemStorage.mk (some 1)) 9223372037]).convAt (some 0) = some s ∧
      (ConversationManager.mk "goodsCool" 9223372037 (MemStorage.mk (some 0))).GC 1
        (Heap.mk [[("a", Value.conv (some 0))], []]
          [Conversation.mk 0 "a" (MemStorage.mk (some 1)) 9223372037]) = some h1 ∧
      mapGet ((ConversationManager.mk "goodsCool" 9223372037
        (MemStorage.mk (some 0))).registry h1) "a" = none ∧
      s.MaxAge = (ConversationManager.mk "goodsCool" 9223372037 (MemStorage.mk (some 0))).MaxAge ∧
      ¬ (s.LastAccessTime + s.MaxAge * 1000000000 < 1)) :=
  ⟨⟨Conversation.mk 0 "a" (MemStorage.mk (some 1)) 1800,
      Heap.mk [[], []] [Conversation.mk 0 "a" (MemStorage.mk (some 1)) 1800],
      by decide, by decide, by decide, by decide⟩,
    ⟨Conversation.mk 0 "a" (MemStorage.mk (some 1)) 9223372037,
      Heap.mk [[], []] [Conversation.mk 0 "a" (MemStorage.mk (some 1)) 9223372037],
      by decide, by decide, by decide, by decide, by decide⟩⟩

/-- C4 (amended): TTL expiry scan.  For a registry with distinct keys whose
values all point to allocated sessions, one scan pass of `GC` at instant `now`
terminates without panic, leaves every session record and every other map
unchanged, creates no entry, and removes the entry of a session if and only if
`now` is strictly later than that session's `LastAccessTime` plus the manager's
`MaxAge` seconds taken as an `int64` count of nanoseconds; the entry of every
other session is kept as it was.  When `0 ≤ MaxAge * 10^9 < 2^63` that duration
is exactly `MaxAge` seconds, so a session with
`LastAccessTime = now - (MaxAge + 1) s` is removed and one with
`LastAccessTime = now - (MaxAge - 1) s` survives. -/
theorem gc_scan_expiry (cm : ConversationManager) (now : Int) (h : Heap)
    (hnd : (mapKeys (cm.registry h)).Nodup) (hval : cm.SessionsValid h) :
    ∃ h1, cm.GC now h = some h1 ∧ h1.convs = h.convs ∧
      (∀ r, r ≠ cm.Storage.DataStorage → h1.mapAt r = h.mapAt r) ∧
      (∀ id, mapGet (cm.registry h) id = none → mapGet (cm.registry h1) id = none) ∧
      (∀ id a s, mapGet (cm.registry h) id = some (Value.conv (some a)) →
        h.convAt (some a) = some s →
        (mapGet (cm.registry h1) id = none ↔ s.LastAccessTime + cm.duration < now) ∧
        (¬ s.LastAccessTime + cm.duration < now →
          mapGet (cm.registry h1) id = some (Value.conv (some a)))) ∧
      (0 ≤ cm.MaxAge * 1000000000 → cm.MaxAge * 1000000000 < 9223372036854775808 →
        cm.duration = cm.MaxAge * 1000000000 ∧
        ∀ id a s, mapGet (cm.registry h) id = some (Value.conv (some a)) →
          h.convAt (some a) = some s →
          (s.LastAccessTime = now - (cm.MaxAge + 1) * 1000000000 →
            mapGet (cm.registry h1) id = none) ∧
          (s.LastAccessTime = now - (cm.MaxAge - 1) * 1000000000 →
            mapGet (cm.registry h1) id = some (Value.conv (some a)))) := by
  obtain ⟨h1, hgc, hconvs, hreg, hother⟩ := gc_spec cm now h hnd hval
  have hkey : ∀ id a s, mapGet (cm.registry h) id = some (Value.conv (some a)) →
      h.convAt (some a) = some s →
      (mapGet (cm.registry h1) id = none ↔ s.LastAccessTime + cm.duration < now) ∧
      (¬ s.LastAccessTime + cm.duration < now →
        mapGet (cm.registry h1) id = some (Value.conv (some a))) := by
    intro id a s hget hs
    have hf := mapGet_filter_of_nodup (cm.registry h) (cm.keeps now h) id _ hnd hget
    rw [← hreg, keeps_eq cm now h id a s hs] at hf
    by_cases hlt : s.LastAccessTime + cm.duration < now
    · simp only [hlt, decide_True, Bool.not_true, Bool.false_eq_true, if_false] at hf
      exact ⟨⟨fun _ => hlt, fun _ => hf⟩, fun hc => absurd hlt hc⟩
    · simp only [hlt, decide_False, Bool.not_false, if_true] at hf
      refine ⟨⟨fun hc => ?_, fun hc => absurd hc hlt⟩, fun _ => hf⟩
      rw [hf] at hc
      cases hc
  refine ⟨h1, hgc, hconvs, hother, ?_, hkey, ?_⟩
  · intro id hnone
    rw [hreg]
    exact mapGet_filter_none _ _ _ hnone
  · intro h0 hlt
    have hd := duration_eq cm h0 hlt
    refine ⟨hd, ?_⟩
    intro id a s hget hs
    obtain ⟨hiff, hkeep⟩ := hkey id a s hget hs
    refine ⟨fun hl => hiff.mpr ?_, fun hl => hkeep ?_⟩
    · rw [hd, hl]; omega
    · rw [hd, hl]; omega

/-- Witness for C4 (amended): a scan at instant 2 s over one session last
accessed at instant 0 under a manager with `MaxAge = 1`. -/
theorem gc_scan_expiry_witness :
    (mapKeys ((ConversationManager.mk "goodsCool" 1 (MemStorage.mk (some 0))).registry
      (Heap.mk [[("a", Value.conv (some 0))], []]
        [Conversation.mk 0 "a" (MemStorage.mk (some 1)) 1800]))).Nodup ∧
    (ConversationManager.mk "goodsCool" 1 (MemStorage.mk (some 0))).SessionsValid
      (Heap.mk [[("a", Value.conv (some 0))], []]
        [Conversation.mk 0 "a" (MemStorage.mk (some 1)) 1800]) ∧
    ∃ h1, (ConversationManager.mk "goodsCool" 1 (MemStorage.mk (some 0))).GC 2000000000
        (Heap.mk [[("a", Value.conv (some 0))], []]
          [Conversation.mk 0 "a" (MemStorage.mk (some 1)) 1800]) = some h1 ∧
      mapGet ((ConversationManager.mk "goodsCool" 1 (MemStorage.mk (some 0))).registry h1) "a" =
        none := by
  have hnd : (mapKeys ((ConversationManager.mk "goodsCool" 1 (MemStorage.mk (some 0))).registry
      (Heap.mk [[("a", Value.conv (some 0))], []]
        [Conversation.mk 0 "a" (MemStorage.mk (some 1)) 1800]))).Nodup := by decide
  have hval : (ConversationManager.mk "goodsCool" 1 (MemStorage.mk (some 0))).SessionsValid
      (Heap.mk [[("a", Value.conv (some 0))], []]
        [Conversation.mk 0 "a" (MemStorage.mk (some 1)) 1800]) := by
    intro e he
    have he1 : e = ("a", Value.conv (some 0)) := by
      simpa [ConversationManager.registry, Heap.mapAt] using he
    exact ⟨0, Conversation.mk 0 "a" (MemStorage.mk (some 1)) 1800, by rw [he1], rfl⟩
  obtain ⟨h1, hgc, _, _, _, hkey, _⟩ := gc_scan_expiry
    (ConversationManager.mk "goodsCool" 1 (MemStorage.mk (some 0))) 2000000000
    (Heap.mk [[("a", Value.conv (some 0))], []]
      [Conversation.mk 0 "a" (MemStorage.mk (some 1)) 1800]) hnd hval
  exact ⟨hnd, hval, h1, hgc,
    (hkey "a" 0 (Conversation.mk 0 "a" (MemStorage.mk (some 1)) 1800) (by decide) rfl).1.mpr
      (by decide)⟩

/-- C5: attribute round-trip.  On a session whose private map is allocated,
`Set(k, v)` returns `(true, nil)` and a following `Get(k)` returns `v` with a
nil error, for every key and every value, nil included. -/
theorem set_then_get (c : Option Nat) (s : Conversation) (h : Heap) (k : String) (v : Value)
    (hc : h.convAt c = some s) (halloc : h.Allocated s.CSData.DataStorage) :
    ∃ h1, Conversation.Set c k v h = some ((true, none), h1) ∧
      Conversation.Get c k h1 = some (v, none) := by
  obtain ⟨i, hr, hi⟩ := halloc
  refine ⟨h.setMap (some i) (mapSet (h.mapAt (some i)) k v), ?_, ?_⟩
  · simp only [Conversation.Set, hc, store_eq s.CSData k v h i hr hi]
  · have hc1 : (h.setMap (some i) (mapSet (h.mapAt (some i)) k v)).convAt c = some s := by
      cases c with
      | none => cases hc
      | some a => exact hc
    rw [get_eq c s k _ hc1, hr, mapAt_setMap_same h i _ hi,
      mapIndex_of_get_some _ k v (mapGet_mapSet_self _ k v)]

/-- Witness for C5: set and read back the attribute "user" (and a nil value). -/
theorem set_then_get_witness :
    (Heap.mk [[]] [Conversation.mk 0 "a" (MemStorage.mk (some 0)) 1800]).convAt (some 0) =
      some (Conversation.mk 0 "a" (MemStorage.mk (some 0)) 1800) ∧
    (Heap.mk [[]] [Conversation.mk 0 "a" (MemStorage.mk (some 0)) 1800]).Allocated
      (Conversation.mk 0 "a" (MemStorage.mk (some 0)) 1800).CSData.DataStorage ∧
    ∃ h1, Conversation.Set (some 0) "user" (Value.str "bob")
        (Heap.mk [[]] [Conversation.mk 0 "a" (MemStorage.mk (some 0)) 1800]) =
        some ((true, none), h1) ∧
      Conversation.Get (some 0) "user" h1 = some (Value.str "bob", none) :=
  ⟨rfl, ⟨0, rfl, by decide⟩,
    set_then_get (some 0) (Conversation.mk 0 "a" (MemStorage.mk (some 0)) 1800)
      (Heap.mk [[]] [Conversation.mk 0 "a" (MemStorage.mk (some 0)) 1800]) "user"
      (Value.str "bob") rfl ⟨0, rfl, by decide⟩⟩

/-- C6: for a manager whose registry holds only sessions, `GetConversation(id)`
returns the pointer registered under `id`, or nil when `id` has no entry, and
returns the heap it was given: no entry is created and no session is modified. -/
theorem getConversation_frame (cm : ConversationManager) (id : String) (h : Heap)
    (hsess : cm.HoldsOnlySessions h) :
    ∃ p, cm.GetConversation id h = some (p, h) ∧
      (mapGet (cm.registry h) id = none → p = none) ∧
      (∀ q, mapGet (cm.registry h) id = some (Value.conv q) → p = q) := by
  rcases mapIndex_cases (cm.registry h) id with ⟨hnone, hnil⟩ | hsome
  · refine ⟨none, getConversation_nil cm id h hnil, fun _ => rfl, ?_⟩
    intro q hq
    rw [hnone] at hq
    cases hq
  · obtain ⟨q, hq⟩ := hsess _ (mem_of_mapGet _ _ _ hsome)
    have hq1 : mapIndex (cm.registry h) id = Value.conv q := hq
    refine ⟨q, getConversation_found cm id h q hq1, ?_, ?_⟩
    · intro hnone
      rw [hnone] at hsome
      cases hsome
    · intro q1 hq2
      rw [hq2, hq1] at hsome
      injection hsome with hs
      injection hs with hs1
      exact hs1.symm

/-- Witness for C6: looking up a registered and an unregistered identifier. -/
theorem getConversation_frame_witness :
    (ConversationManager.mk "goodsCool" 1800 (MemStorage.mk (some 0))).HoldsOnlySessions
      (Heap.mk [[("a", Value.conv (some 0))], []]
        [Conversation.mk 3 "a" (MemStorage.mk (some 1)) 1800]) ∧
    (ConversationManager.mk "goodsCool" 1800 (MemStorage.mk (some 0))).GetConversation "a"
      (Heap.mk [[("a", Value.conv (some 0))], []]
        [Conversation.mk 3 "a" (MemStorage.mk (some 1)) 1800]) =
      some (some 0, Heap.mk [[("a", Value.conv (some 0))], []]
        [Conversation.mk 3 "a" (MemStorage.mk (some 1)) 1800]) := by
  have hs : (ConversationManager.mk "goodsCool" 1800 (MemStorage.mk (some 0))).HoldsOnlySessions
      (Heap.mk [[("a", Value.conv (some 0))], []]
        [Conversation.mk 3 "a" (MemStorage.mk (some 1)) 1800]) := by
    intro e he
    have he1 : e = ("a", Value.conv (some 0)) := by
      simpa [ConversationManager.registry, Heap.mapAt] using he
    exact ⟨some 0, by rw [he1]⟩
  obtain ⟨p, hp, _, hq⟩ := getConversation_frame
    (ConversationManager.mk "goodsCool" 1800 (MemStorage.mk (some 0))) "a"
    (Heap.mk [[("a", Value.conv (some 0))], []]
      [Conversation.mk 3 "a" (MemStorage.mk (some 1)) 1800]) hs
  rw [hq (some 0) (by decide)] at hp
  exact ⟨hs, hp⟩

/-- C7: `Destroy(id)` always returns `(true, nil)`; when `id` has no entry in
the registry the heap is left exactly unchanged; when a non-nil value is
registered under `id` its entry is removed, every other identifier keeps its
entry, and no session record is touched. -/
theorem destroy_spec (cm : ConversationManager) (id : String) (h : Heap) :
    (cm.Destroy id h).1 = (true, none) ∧
    (mapGet (cm.registry h) id = none → (cm.Destroy id h).2 = h) ∧
    (∀ v, mapGet (cm.registry h) id = some v → v ≠ Value.nil →
      mapGet (cm.registry (cm.Destroy id h).2) id = none ∧
      ∀ k, k ≠ id → mapGet (cm.registry (cm.Destroy id h).2) k = mapGet (cm.registry h) k) ∧
    (cm.Destroy id h).2.convs = h.convs := by
  refine ⟨destroy_result cm id h, ?_, ?_, destroy_convs cm id h⟩
  · intro hnone
    rcases destroy_registry cm id h with ⟨hv, _⟩ | ⟨_, he⟩
    · exact absurd (mapIndex_of_get_none _ _ hnone) hv
    · exact he
  · intro v hsome hv
    rcases destroy_registry cm id h with ⟨_, he⟩ | ⟨hnil, _⟩
    · rw [he]
      exact ⟨mapGet_mapDelete_self _ _, fun k hk => mapGet_mapDelete_ne _ _ _ hk⟩
    · rw [mapIndex_of_get_some _ _ _ hsome] at hnil
      exact absurd hnil hv

/-- C8: on a store whose map is allocated, `Store(k, v)` returns true; afterwards
`Load(k)` returns `(v, found)` with `found` true exactly when `v` is non-nil, and
`Load` of every other key returns what it returned before; so after
`Store(k, nil)` the result of `Load(k)` is `(nil, false)`, which is also what
`Load` returns for a key that has no entry. -/
theorem store_then_load (ms : MemStorage) (h : Heap) (k : String) (v : Value)
    (halloc : h.Allocated ms.DataStorage) :
    ∃ h1, ms.Store k v h = some (true, h1) ∧
      ms.Load k h1 = (v, decide (v ≠ Value.nil)) ∧
      (∀ k1, k1 ≠ k → ms.Load k1 h1 = ms.Load k1 h) ∧
      (v = Value.nil → ms.Load k h1 = (Value.nil, false)) ∧
      (∀ k0, mapGet (h.mapAt ms.DataStorage) k0 = none → ms.Load k0 h = (Value.nil, false)) := by
  obtain ⟨i, hr, hi⟩ := halloc
  refine ⟨_, store_eq ms k v h i hr hi, ?_, ?_, ?_, ?_⟩
  · rw [load_eq, hr, mapAt_setMap_same h i _ hi,
      mapIndex_of_get_some _ k v (mapGet_mapSet_self _ k v)]
  · intro k1 hne
    rw [load_eq, load_eq, hr, mapAt_setMap_same h i _ hi]
    simp only [mapIndex, mapGet_mapSet_ne _ k k1 v hne]
  · intro hv
    rw [load_eq, hr, mapAt_setMap_same h i _ hi,
      mapIndex_of_get_some _ k v (mapGet_mapSet_self _ k v), hv]
    simp
  · intro k0 hk0
    rw [load_eq, mapIndex_of_get_none _ k0 hk0]
    simp

/-- Witness for C8: storing nil under "a" in an allocated empty map. -/
theorem store_then_load_witness :
    (Heap.mk [[]] []).Allocated (MemStorage.mk (some 0)).DataStorage ∧
    ∃ h1, (MemStorage.mk (some 0)).Store "a" Value.nil (Heap.mk [[]] []) = some (true, h1) ∧
      (MemStorage.mk (some 0)).Load "a" h1 = (Value.nil, false) :=
  ⟨⟨0, rfl, by decide⟩,
    (store_then_load (MemStorage.mk (some 0)) (Heap.mk [[]] []) "a" Value.nil
      ⟨0, rfl, by decide⟩).imp (fun _ hh => ⟨hh.1, hh.2.2.2.1 rfl⟩)⟩

/-- C9: `Delete(k)` returns the value previously mapped to `k` (nil when `k` had
no entry), afterwards `Load(k)` returns `(nil, false)`, and the mapping of every
other key is unchanged. -/
theorem delete_returns_previous (ms : MemStorage) (h : Heap) (k : String) :
    (ms.Delete k h).1 = (mapGet (h.mapAt ms.DataStorage) k).getD Value.nil ∧
    ms.Load k (ms.Delete k h).2 = (Value.nil, false) ∧
    (∀ k1, k1 ≠ k → mapGet ((ms.Delete k h).2.mapAt ms.DataStorage) k1 =
      mapGet (h.mapAt ms.DataStorage) k1) := by
  refine ⟨?_, ?_, ?_⟩
  · show (match mapGet (h.mapAt ms.DataStorage) k with
      | some v => v
      | none => Value.nil) = _
    cases mapGet (h.mapAt ms.DataStorage) k <;> rfl
  · rw [load_eq, mapAt_delete, mapIndex_of_get_none _ k (mapGet_mapDelete_self _ k)]
    simp
  · intro k1 hne
    rw [mapAt_delete]
    exact mapGet_mapDelete_ne _ k k1 hne

/-- Counterexample to C10 as stated: a manager configured with cookie name
"sid" and `MaxAge = 9223372037` answers a request without cookies with a cookie
named "goodsCool", not "sid", whose `Expires` is not `now` plus `MaxAge`
seconds, because `MaxAge * 10^9` overflows `int64`. -/
theorem managerNormalRequest_counterexample :
    ∃ p e c h1,
      (ConversationManager.mk "sid" 9223372037 (MemStorage.mk (some 0))).ManagerNormalRequest []
        (Request.mk []) ("u1", none) 5 6 (Heap.mk [[]] []) = some ((p, e), [c], h1) ∧
      c.Name ≠ (ConversationManager.mk "sid" 9223372037 (MemStorage.mk (some 0))).CookieName ∧
      c.Expires ≠ 6 +
        (ConversationManager.mk "sid" 9223372037 (MemStorage.mk (some 0))).MaxAge * 1000000000 :=
  ⟨some 0, some Err.ErrNoCookie,
    Cookie.mk "goodsCool" "u1" "/" (-9223372036709551610) "" 9223372037 false false 0 "" [],
    Heap.mk [[("u1", Value.conv (some 0))], []]
      [Conversation.mk 6 "u1" (MemStorage.mk (some 1)) 1800],
    by decide, by decide, by decide⟩

/-- C10 (amended): for a manager whose registry map is allocated and satisfies
the registry invariant, and a request for which an identifier is available
(its session cookie, or else a successfully generated one),
`ManagerNormalRequest` at time `now2` returns a pointer to an allocated session
and appends exactly one response cookie whose name is the package constant
`CookieName` (the manager's configured name exactly when that is
"goodsCool"), whose value is the identifier under which the returned session is
registered and which is that session's `Cid`, with path "/", `Max-Age` equal
to the manager's `MaxAge`, and `Expires` equal to `now2` plus the manager's
`MaxAge` seconds taken as an `int64` count of nanoseconds (exactly `MaxAge`
seconds when `0 ≤ MaxAge * 10^9 < 2^63`); the returned session's
`LastAccessTime` equals `now2`. -/
theorem managerNormalRequest_cookie (cm : ConversationManager) (w : List Cookie) (r : Request)
    (gen : String × Option Err) (now1 now2 : Int) (h : Heap)
    (halloc : h.Allocated cm.Storage.DataStorage) (hinv : cm.RegistryInv h)
    (hgen : (r.Cookie CookieName).1 = none → gen.2 = none) :
    ∃ a s c h1, cm.ManagerNormalRequest w r gen now1 now2 h =
        some ((some a, (r.Cookie CookieName).2), w ++ [c], h1) ∧
      c.Name = CookieName ∧ (cm.CookieName = CookieName → c.Name = cm.CookieName) ∧
      c.Value = (r.Cookie CookieName).1.getD gen.1 ∧ c.Path = "/" ∧
      c.MaxAge = cm.MaxAge ∧ c.Expires = now2 + cm.duration ∧
      (0 ≤ cm.MaxAge * 1000000000 → cm.MaxAge * 1000000000 < 9223372036854775808 →
        c.Expires = now2 + cm.MaxAge * 1000000000) ∧
      h1.convAt (some a) = some s ∧ s.Cid = c.Value ∧ s.LastAccessTime = now2 ∧
      mapGet (cm.registry h1) c.Value = some (Value.conv (some a)) := by
  obtain ⟨a, s, h1, hc, hs, hcid, hreg⟩ :=
    create_total cm ((r.Cookie CookieName).1.getD gen.1) now1 h halloc hinv
  refine ⟨a, Conversation.mk now2 s.Cid s.CSData s.MaxAge,
    Cookie.mk CookieName ((r.Cookie CookieName).1.getD gen.1) "/" (now2 + cm.duration) ""
      cm.MaxAge false false 0 "" [],
    h1.setConv a (Conversation.mk now2 s.Cid s.CSData s.MaxAge),
    managerNormalRequest_eq cm w r gen now1 now2 h a s h1 hgen hc hs,
    rfl, fun hn => hn.symm, rfl, rfl, rfl, rfl, ?_, convAt_setConv_same h1 a s _ hs, hcid, rfl, ?_⟩
  · intro h0 hlt
    show now2 + cm.duration = _
    rw [duration_eq cm h0 hlt]
  · rw [registry_setConv]
    exact hreg

/-- Witness for C10 (amended): a request without cookies to the default
manager with an empty registry. -/
theorem managerNormalRequest_cookie_witness :
    (Heap.mk [[]] []).Allocated
      (ConversationManager.mk "goodsCool" 1800 (MemStorage.mk (some 0))).Storage.DataStorage ∧
    (ConversationManager.mk "goodsCool" 1800 (MemStorage.mk (some 0))).RegistryInv
      (Heap.mk [[]] []) ∧
    ((Request.mk []).Cookie CookieName).1 = none ∧
    ∃ a s c h1,
      (ConversationManager.mk "goodsCool" 1800 (MemStorage.mk (some 0))).ManagerNormalRequest []
        (Request.mk []) ("u1", none) 5 6 (Heap.mk [[]] []) =
        some ((some a, some Err.ErrNoCookie), [c], h1) ∧
      c.Name = "goodsCool" ∧ c.Value = "u1" ∧ c.Path = "/" ∧ c.MaxAge = 1800 ∧
      c.Expires = 6 + 1800 * 1000000000 ∧
      h1.convAt (some a) = some s ∧ s.Cid = "u1" ∧ s.LastAccessTime = 6 :=
  ⟨⟨0, rfl, by decide⟩, fun _ he => absurd he (List.not_mem_nil _), rfl,
    (managerNormalRequest_cookie
      (ConversationManager.mk "goodsCool" 1800 (MemStorage.mk (some 0))) [] (Request.mk [])
      ("u1", none) 5 6 (Heap.mk [[]] []) ⟨0, rfl, by decide⟩
      (fun _ he => absurd he (List.not_mem_nil _)) (fun _ => rfl)).imp
      (fun _ ha => ha.imp (fun _ hs => hs.imp (fun _ hc => hc.imp (fun _ hh =>
        ⟨hh.1, hh.2.1, hh.2.2.2.1, hh.2.2.2.2.1, hh.2.2.2.2.2.1,
          hh.2.2.2.2.2.2.2.1 (by decide) (by decide), hh.2.2.2.2.2.2.2.2.1,
          hh.2.2.2.2.2.2.2.2.2.1.trans hh.2.2.2.1, hh.2.2.2.2.2.2.2.2.2.2.1⟩))))⟩

/-- C11: cookie round-trip.  For a manager whose registry map is allocated and
satisfies the registry invariant, a first `ManagerNormalRequest` establishes a
session under the identifier `X` (the request's session cookie, or else the
generated identifier); every later `ManagerNormalRequest` on the resulting heap
whose request carries the session cookie with value `X` returns the same
pointer with a nil error, answers with a cookie of value `X`, allocates no
session, leaves the registry and every map (hence every stored attribute)
unchanged, leaves every other session unchanged, and sets the session's
`LastAccessTime` to the time of that second request. -/
theorem cookie_round_trip (cm : ConversationManager) (w : List Cookie) (r : Request)
    (gen : String × Option Err) (now1 now2 : Int) (h : Heap)
    (halloc : h.Allocated cm.Storage.DataStorage) (hinv : cm.RegistryInv h)
    (hgen : (r.Cookie CookieName).1 = none → gen.2 = none) :
    ∃ a s c h1, cm.ManagerNormalRequest w r gen now1 now2 h =
        some ((some a, (r.Cookie CookieName).2), w ++ [c], h1) ∧
      c.Value = (r.Cookie CookieName).1.getD gen.1 ∧
      h1.convAt (some a) = some s ∧
      ∀ (w2 : List Cookie) (r2 : Request) (gen2 : String × Option Err) (t3 t4 : Int),
        (r2.Cookie CookieName).1 = some c.Value →
        ∃ c2 h2, cm.ManagerNormalRequest w2 r2 gen2 t3 t4 h1 =
            some ((some a, none), w2 ++ [c2], h2) ∧
          c2.Value = c.Value ∧
          h2.maps = h1.maps ∧ cm.registry h2 = cm.registry h1 ∧
          h2.convs.length = h1.convs.length ∧
          h2.convAt (some a) = some (Conversation.mk t4 s.Cid s.CSData s.MaxAge) ∧
          (∀ k, Conversation.Get (some a) k h2 = Conversation.Get (some a) k h1) ∧
          (∀ b, b ≠ a → h2.convAt (some b) = h1.convAt (some b)) := by
  obtain ⟨a, s, h0, hc, hs, _, hreg⟩ :=
    create_total cm ((r.Cookie CookieName).1.getD gen.1) now1 h halloc hinv
  have hs1 := convAt_setConv_same h0 a s (Conversation.mk now2 s.Cid s.CSData s.MaxAge) hs
  refine ⟨a, Conversation.mk now2 s.Cid s.CSData s.MaxAge,
    Cookie.mk CookieName ((r.Cookie CookieName).1.getD gen.1) "/" (now2 + cm.duration) ""
      cm.MaxAge false false 0 "" [],
    h0.setConv a (Conversation.mk now2 s.Cid s.CSData s.MaxAge),
    managerNormalRequest_eq cm w r gen now1 now2 h a s h0 hgen hc hs, rfl, hs1, ?_⟩
  intro w2 r2 gen2 t3 t4 hck
  have hfound : cm.Create ((r2.Cookie CookieName).1.getD gen2.1) t3
      (h0.setConv a (Conversation.mk now2 s.Cid s.CSData s.MaxAge)) =
      some ((some a, none), h0.setConv a (Conversation.mk now2 s.Cid s.CSData s.MaxAge)) := by
    rw [hck]
    apply create_found
    show mapIndex (cm.registry (h0.setConv a _)) _ = _
    rw [registry_setConv]
    exact mapIndex_of_get_some _ _ _ hreg
  have heq := managerNormalRequest_eq cm w2 r2 gen2 t3 t4 _ a _ _
    (fun hn => by rw [hck] at hn; cases hn) hfound hs1
  rw [cookie_snd_of_some r2 CookieName _ hck] at heq
  have hs2 := convAt_setConv_same _ a _ (Conversation.mk t4 s.Cid s.CSData s.MaxAge) hs1
  refine ⟨_, _, heq, by rw [hck]; rfl, rfl, rfl, by simp [Heap.setConv], hs2, ?_, ?_⟩
  · intro k
    rw [get_eq _ _ k _ hs2, get_eq _ _ k _ hs1]
    rfl
  · intro b hb
    exact convAt_setConv_ne _ a b _ hb

/-- Witness for C11: a first request without cookies creates the session "u1",
a second request presenting the cookie value "u1" resolves to it. -/
theorem cookie_round_trip_witness :
    (Heap.mk [[]] []).Allocated
      (ConversationManager.mk "goodsCool" 1800 (MemStorage.mk (some 0))).Storage.DataStorage ∧
    (ConversationManager.mk "goodsCool" 1800 (MemStorage.mk (some 0))).RegistryInv
      (Heap.mk [[]] []) ∧
    ∃ a h1 c2 h2,
      (ConversationManager.mk "goodsCool" 1800 (MemStorage.mk (some 0))).ManagerNormalRequest []
        (Request.mk []) ("u1", none) 5 6 (Heap.mk [[]] []) =
        some ((some a, some Err.ErrNoCookie),
          [Cookie.mk "goodsCool" "u1" "/" 1800000000006 "" 1800 false false 0 "" []], h1) ∧
      (ConversationManager.mk "goodsCool" 1800 (MemStorage.mk (some 0))).ManagerNormalRequest []
        (Request.mk [("goodsCool", "u1")]) ("u2", none) 8 9 h1 =
        some ((some a, none), [c2], h2) ∧
      h2.convAt (some a) = some (Conversation.mk 9 "u1" (MemStorage.mk (some 1)) 1800) := by
  obtain ⟨a, s, c, h1, hfirst, hval, hs, hsecond⟩ := cookie_round_trip
    (ConversationManager.mk "goodsCool" 1800 (MemStorage.mk (some 0))) [] (Request.mk [])
    ("u1", none) 5 6 (Heap.mk [[]] []) ⟨0, rfl, by decide⟩
    (fun _ he => absurd he (List.not_mem_nil _)) (fun _ => rfl)
  have hev : (ConversationManager.mk "goodsCool" 1800
      (MemStorage.mk (some 0))).ManagerNormalRequest [] (Request.mk []) ("u1", none) 5 6
      (Heap.mk [[]] []) =
      some ((some 0, some Err.ErrNoCookie),
        [Cookie.mk "goodsCool" "u1" "/" 1800000000006 "" 1800 false false 0 "" []],
        Heap.mk [[("u1", Value.conv (some 0))], []]
          [Conversation.mk 6 "u1" (MemStorage.mk (some 1)) 1800]) := by decide
  rw [hev] at hfirst
  injection hfirst with hfirst
  injection hfirst with hp hrest
  injection hp with ha _
  injection ha with ha
  injection hrest with hw hh
  simp only [List.nil_append] at hw
  injection hw with hc _
  subst ha
  subst hh
  subst hc
  have hs0 : s = Conversation.mk 6 "u1" (MemStorage.mk (some 1)) 1800 := by
    have : (some (Conversation.mk 6 "u1" (MemStorage.mk (some 1)) 1800) : Option Conversation) =
        some s := hs
    injection this with this
    exact this.symm
  subst hs0
  obtain ⟨c2, h2, hcall, _, _, _, _, hconv, _, _⟩ :=
    hsecond [] (Request.mk [("goodsCool", "u1")]) ("u2", none) 8 9 (by decide)
  exact ⟨⟨0, rfl, by decide⟩, fun _ he => absurd he (List.not_mem_nil _), 0, _, c2, h2, hev,
    hcall, hconv⟩

/-- C14: on an allocated session `Get` returns a nil error for every key; for a
key with no entry in the private store, and for a key just deleted from it, the
result is `(nil, nil)`. -/
theorem get_never_errors (c : Option Nat) (s : Conversation) (k : String) (h : Heap)
    (hc : h.convAt c = some s) :
    (∃ v, Conversation.Get c k h = some (v, none)) ∧
    (mapGet (h.mapAt s.CSData.DataStorage) k = none →
      Conversation.Get c k h = some (Value.nil, none)) ∧
    Conversation.Get c k (s.CSData.Delete k h).2 = some (Value.nil, none) := by
  refine ⟨⟨_, get_eq c s k h hc⟩, ?_, ?_⟩
  · intro hnone
    rw [get_eq c s k h hc, mapIndex_of_get_none _ _ hnone]
  · have hc1 : (s.CSData.Delete k h).2.convAt c = some s := by
      have hcv : (s.CSData.Delete k h).2.convs = h.convs := setMap_convs _ _ _
      rw [convAt_congr h _ c hcv]
      exact hc
    rw [get_eq c s k _ hc1, mapAt_delete,
      mapIndex_of_get_none _ _ (mapGet_mapDelete_self _ _)]

/-- Witness for C14: reading a key that was never set. -/
theorem get_never_errors_witness :
    (Heap.mk [[("user", Value.str "bob")]]
      [Conversation.mk 0 "a" (MemStorage.mk (some 0)) 1800]).convAt (some 0) =
      some (Conversation.mk 0 "a" (MemStorage.mk (some 0)) 1800) ∧
    Conversation.Get (some 0) "cart" (Heap.mk [[("user", Value.str "bob")]]
      [Conversation.mk 0 "a" (MemStorage.mk (some 0)) 1800]) = some (Value.nil, none) :=
  ⟨rfl, (get_never_errors (some 0) (Conversation.mk 0 "a" (MemStorage.mk (some 0)) 1800) "cart"
    (Heap.mk [[("user", Value.str "bob")]]
      [Conversation.mk 0 "a" (MemStorage.mk (some 0)) 1800]) rfl).2.1 (by decide)⟩

/-- C16: for a manager whose registry map is allocated and satisfies the
registry invariant, a request that carries no session cookie, and a successful
identifier generation, `ManagerNormalRequest` does not abort: it returns a
non-nil pointer to an allocated session registered under the generated
identifier, appends the response cookie carrying that identifier, and still
returns the non-nil cookie-read error `ErrNoCookie`. -/
theorem managerNormalRequest_no_cookie (cm : ConversationManager) (w : List Cookie)
    (r : Request) (gen : String × Option Err) (now1 now2 : Int) (h : Heap)
    (halloc : h.Allocated cm.Storage.DataStorage) (hinv : cm.RegistryInv h)
    (hno : (r.Cookie CookieName).1 = none) (hgen : gen.2 = none) :
    ∃ a s c h1, cm.ManagerNormalRequest w r gen now1 now2 h =
        some ((some a, some Err.ErrNoCookie), w ++ [c], h1) ∧
      c.Name = CookieName ∧ c.Value = gen.1 ∧
      h1.convAt (some a) = some s ∧ s.Cid = gen.1 ∧
      mapGet (cm.registry h1) gen.1 = some (Value.conv (some a)) := by
  have hid : (r.Cookie CookieName).1.getD gen.1 = gen.1 := by rw [hno]; rfl
  obtain ⟨a, s, h0, hc, hs, hcid, hreg⟩ :=
    create_total cm ((r.Cookie CookieName).1.getD gen.1) now1 h halloc hinv
  have heq := managerNormalRequest_eq cm w r gen now1 now2 h a s h0 (fun _ => hgen) hc hs
  rw [cookie_snd_of_none r CookieName hno] at heq
  rw [hid] at hcid hreg
  refine ⟨a, Conversation.mk now2 s.Cid s.CSData s.MaxAge, _, _, heq, rfl, hid,
    convAt_setConv_same h0 a s _ hs, hcid, ?_⟩
  rw [registry_setConv]
  exact hreg

/-- Witness for C16: a request without cookies to the default manager. -/
theorem managerNormalRequest_no_cookie_witness :
    (Heap.mk [[]] []).Allocated
      (ConversationManager.mk "goodsCool" 1800 (MemStorage.mk (some 0))).Storage.DataStorage ∧
    (ConversationManager.mk "goodsCool" 1800 (MemStorage.mk (some 0))).RegistryInv
      (Heap.mk [[]] []) ∧
    ((Request.mk [("lang", "en")]).Cookie CookieName).1 = none ∧
    ∃ a s c h1,
      (ConversationManager.mk "goodsCool" 1800 (MemStorage.mk (some 0))).ManagerNormalRequest []
        (Request.mk [("lang", "en")]) ("u1", none) 5 6 (Heap.mk [[]] []) =
        some ((some a, some Err.ErrNoCookie), [c], h1) ∧
      c.Value = "u1" ∧ h1.convAt (some a) = some s ∧ s.Cid = "u1" :=
  ⟨⟨0, rfl, by decide⟩, fun _ he => absurd he (List.not_mem_nil _), by decide,
    (managerNormalRequest_no_cookie
      (ConversationManager.mk "goodsCool" 1800 (MemStorage.mk (some 0))) []
      (Request.mk [("lang", "en")]) ("u1", none) 5 6 (Heap.mk [[]] []) ⟨0, rfl, by decide⟩
      (fun _ he => absurd he (List.not_mem_nil _)) (by decide) rfl).imp
      (fun _ ha => ha.imp (fun _ hs => hs.imp (fun _ hc => hc.imp (fun _ hh =>
        ⟨hh.1, hh.2.2.1, hh.2.2.2.1, hh.2.2.2.2.1⟩))))⟩

/-- C19: for a manager with `0 ≤ MaxAge * 10^9 < 2^63` and a registry with
distinct keys whose values all point to allocated sessions, one scan pass of
`GC` at instant `now` terminates and decides from the manager's `MaxAge`: the
entry of a session is removed if and only if `now` is strictly after its
`LastAccessTime` plus the manager's `MaxAge` seconds, whatever the session's
own `MaxAge` field holds, and a session for which `now` equals that expiry
instant is kept. -/
theorem gc_uses_manager_maxAge (cm : ConversationManager) (now : Int) (h : Heap)
    (h0 : 0 ≤ cm.MaxAge * 1000000000) (hlt : cm.MaxAge * 1000000000 < 9223372036854775808)
    (hnd : (mapKeys (cm.registry h)).Nodup) (hval : cm.SessionsValid h) :
    ∃ h1, cm.GC now h = some h1 ∧
      ∀ id a s, mapGet (cm.registry h) id = some (Value.conv (some a)) →
        h.convAt (some a) = some s →
        (mapGet (cm.registry h1) id = none ↔
          s.LastAccessTime + cm.MaxAge * 1000000000 < now) ∧
        (¬ s.LastAccessTime + cm.MaxAge * 1000000000 < now →
          mapGet (cm.registry h1) id = some (Value.conv (some a))) ∧
        (now = s.LastAccessTime + cm.MaxAge * 1000000000 →
          mapGet (cm.registry h1) id = some (Value.conv (some a))) := by
  obtain ⟨h1, hgc, _, hlook⟩ := gc_lookup cm now h hnd hval
  refine ⟨h1, hgc, ?_⟩
  intro id a s hget hs
  have hl := hlook id a s hget hs
  rw [duration_eq cm h0 hlt] at hl
  by_cases hexp : s.LastAccessTime + cm.MaxAge * 1000000000 < now
  · rw [if_pos hexp] at hl
    exact ⟨⟨fun _ => hexp, fun _ => hl⟩, fun hc => absurd hexp hc, fun hc => by omega⟩
  · rw [if_neg hexp] at hl
    refine ⟨⟨fun hc => ?_, fun hc => absurd hc hexp⟩, fun _ => hl, fun _ => hl⟩
    rw [hl] at hc
    cases hc

/-- Witness for C19: the manager has `MaxAge = 2`; of two sessions whose own
`MaxAge` is 1800, the one last accessed at instant 0 is removed by the scan at
instant 3 s and the one last accessed at 1 s, whose expiry instant is exactly
3 s, is kept. -/
theorem gc_uses_manager_maxAge_witness :
    (mapKeys ((ConversationManager.mk "goodsCool" 2 (MemStorage.mk (some 0))).registry
      (Heap.mk [[("a", Value.conv (some 0)), ("b", Value.conv (some 1))], [], []]
        [Conversation.mk 0 "a" (MemStorage.mk (some 1)) 1800,
          Conversation.mk 1000000000 "b" (MemStorage.mk (some 2)) 1800]))).Nodup ∧
    (ConversationManager.mk "goodsCool" 2 (MemStorage.mk (some 0))).SessionsValid
      (Heap.mk [[("a", Value.conv (some 0)), ("b", Value.conv (some 1))], [], []]
        [Conversation.mk 0 "a" (MemStorage.mk (some 1)) 1800,
          Conversation.mk 1000000000 "b" (MemStorage.mk (some 2)) 1800]) ∧
    ∃ h1, (ConversationManager.mk "goodsCool" 2 (MemStorage.mk (some 0))).GC 3000000000
        (Heap.mk [[("a", Value.conv (some 0)), ("b", Value.conv (some 1))], [], []]
          [Conversation.mk 0 "a" (MemStorage.mk (some 1)) 1800,
            Conversation.mk 1000000000 "b" (MemStorage.mk (some 2)) 1800]) = some h1 ∧
      mapGet ((ConversationManager.mk "goodsCool" 2 (MemStorage.mk (some 0))).registry h1) "a" =
        none ∧
      mapGet ((ConversationManager.mk "goodsCool" 2 (MemStorage.mk (some 0))).registry h1) "b" =
        some (Value.conv (some 1)) := by
  have hnd : (mapKeys ((ConversationManager.mk "goodsCool" 2 (MemStorage.mk (some 0))).registry
      (Heap.mk [[("a", Value.conv (some 0)), ("b", Value.conv (some 1))], [], []]
        [Conversation.mk 0 "a" (MemStorage.mk (some 1)) 1800,
          Conversation.mk 1000000000 "b" (MemStorage.mk (some 2)) 1800]))).Nodup := by decide
  have hval : (ConversationManager.mk "goodsCool" 2 (MemStorage.mk (some 0))).SessionsValid
      (Heap.mk [[("a", Value.conv (some 0)), ("b", Value.conv (some 1))], [], []]
        [Conversation.mk 0 "a" (MemStorage.mk (some 1)) 1800,
          Conversation.mk 1000000000 "b" (MemStorage.mk (some 2)) 1800]) := by
    intro e he
    have he1 : e = ("a", Value.conv (some 0)) ∨ e = ("b", Value.conv (some 1)) := by
      simpa [ConversationManager.registry, Heap.mapAt] using he
    rcases he1 with he1 | he1
    · exact ⟨0, _, by rw [he1], rfl⟩
    · exact ⟨1, _, by rw [he1], rfl⟩
  obtain ⟨h1, hgc, hkey⟩ := gc_uses_manager_maxAge
    (ConversationManager.mk "goodsCool" 2 (MemStorage.mk (some 0))) 3000000000
    (Heap.mk [[("a", Value.conv (some 0)), ("b", Value.conv (some 1))], [], []]
      [Conversation.mk 0 "a" (MemStorage.mk (some 1)) 1800,
        Conversation.mk 1000000000 "b" (MemStorage.mk (some 2)) 1800])
    (by decide) (by decide) hnd hval
  exact ⟨hnd, hval, h1, hgc,
    (hkey "a" 0 (Conversation.mk 0 "a" (MemStorage.mk (some 1)) 1800) (by decide) rfl).1.mpr
      (by decide),
    (hkey "b" 1 (Conversation.mk 1000000000 "b" (MemStorage.mk (some 2)) 1800) (by decide)
      rfl).2.2 (by decide)⟩

/-- C12, the code at the failing input: the receiver `m` has its own empty
registry (map 1) and the package variable `Cmgr` has the registry in map 0;
`m.ManagerLogin("bob", w, r)` for a request without cookies and the generated
identifier "u1" registers the session in the registry of `Cmgr`, stores the
attribute `user` there and writes a cookie of value "u1", while the registry of
`m` still has no entry under "u1". -/
theorem managerLogin_ignores_receiver :
    ∃ h1,
      (ConversationManager.mk "goodsCool" 1800 (MemStorage.mk (some 1))).ManagerLogin
        (ConversationManager.mk "goodsCool" 1800 (MemStorage.mk (some 0))) (Value.str "bob") []
        (Request.mk []) ("u1", none) 10 11 (Heap.mk [[], []] []) =
        some ([Cookie.mk "goodsCool" "u1" "/" 1800000000010 "" 0 false false 0 "" []], h1) ∧
      mapGet ((ConversationManager.mk "goodsCool" 1800 (MemStorage.mk (some 1))).registry h1)
        "u1" = none ∧
      mapGet ((ConversationManager.mk "goodsCool" 1800 (MemStorage.mk (some 0))).registry h1)
        "u1" = some (Value.conv (some 0)) ∧
      Conversation.Get (some 0) "user" h1 = some (Value.str "bob", none) :=
  ⟨Heap.mk [[("u1", Value.conv (some 0))], [], [("user", Value.str "bob")]]
      [Conversation.mk 10 "u1" (MemStorage.mk (some 2)) 1800],
    by decide, by decide, by decide, by decide⟩

/-- C13, the code at the failing input: on the default manager (receiver and
package variable alike, `MaxAge = 1800`) `ManagerLogin` at instant 10 writes a
cookie with path "/" and `Expires` equal to 10 plus 1800 s, but with
`MaxAge = 0`, not 1800; `ManagerNormalRequest` on the same manager writes
`MaxAge = 1800`. -/
theorem managerLogin_cookie_maxAge_zero :
    ∃ c h1 p e c2 h2,
      (ConversationManager.mk "goodsCool" 1800 (MemStorage.mk (some 0))).ManagerLogin
        (ConversationManager.mk "goodsCool" 1800 (MemStorage.mk (some 0))) (Value.str "bob") []
        (Request.mk []) ("u1", none) 10 11 (Heap.mk [[]] []) = some ([c], h1) ∧
      c.Path = "/" ∧ c.Expires = 10 + 1800 * 1000000000 ∧ c.MaxAge = 0 ∧
      c.MaxAge ≠ (ConversationManager.mk "goodsCool" 1800 (MemStorage.mk (some 0))).MaxAge ∧
      (ConversationManager.mk "goodsCool" 1800 (MemStorage.mk (some 0))).ManagerNormalRequest []
        (Request.mk []) ("u1", none) 11 10 (Heap.mk [[]] []) = some ((p, e), [c2], h2) ∧
      c2.Expires = 10 + 1800 * 1000000000 ∧
      c2.MaxAge = (ConversationManager.mk "goodsCool" 1800 (MemStorage.mk (some 0))).MaxAge :=
  ⟨Cookie.mk "goodsCool" "u1" "/" 1800000000010 "" 0 false false 0 "" [],
    Heap.mk [[("u1", Value.conv (some 0))], [("user", Value.str "bob")]]
      [Conversation.mk 10 "u1" (MemStorage.mk (some 1)) 1800],
    some 0, some Err.ErrNoCookie,
    Cookie.mk "goodsCool" "u1" "/" 1800000000010 "" 1800 false false 0 "" [],
    Heap.mk [[("u1", Value.conv (some 0))], []]
      [Conversation.mk 10 "u1" (MemStorage.mk (some 1)) 1800],
    by decide, by decide, by decide, by decide, by decide, by decide, by decide, by decide⟩

/-- C17: session attribute stores are isolated.  For a manager whose registry
map is allocated and two distinct identifiers `a` and `b` with no entry yet,
`Create(a)` and then `Create(b)` return pointers to two different sessions;
`Set(k, v)` on either of them succeeds, is visible through `Get(k)` on that
session, leaves `Get` of every key on the other session unchanged, and leaves
the registry unchanged. -/
theorem session_stores_isolated (cm : ConversationManager) (a b : String) (t1 t2 : Int)
    (k : String) (v : Value) (h : Heap) (halloc : h.Allocated cm.Storage.DataStorage)
    (hab : a ≠ b) (ha : mapGet (cm.registry h) a = none) (hb : mapGet (cm.registry h) b = none) :
    ∃ pa pb h1 h2, cm.Create a t1 h = some ((some pa, none), h1) ∧
      cm.Create b t2 h1 = some ((some pb, none), h2) ∧ pa ≠ pb ∧
      mapGet (cm.registry h2) a = some (Value.conv (some pa)) ∧
      mapGet (cm.registry h2) b = some (Value.conv (some pb)) ∧
      (∃ h3, Conversation.Set (some pa) k v h2 = some ((true, none), h3) ∧
        Conversation.Get (some pa) k h3 = some (v, none) ∧
        (∀ k1, Conversation.Get (some pb) k1 h3 = Conversation.Get (some pb) k1 h2) ∧
        cm.registry h3 = cm.registry h2) ∧
      (∃ h3, Conversation.Set (some pb) k v h2 = some ((true, none), h3) ∧
        Conversation.Get (some pb) k h3 = some (v, none) ∧
        (∀ k1, Conversation.Get (some pa) k1 h3 = Conversation.Get (some pa) k1 h2) ∧
        cm.registry h3 = cm.registry h2) := by
  obtain ⟨i, hr, hi⟩ := halloc
  unfold ConversationManager.registry at ha hb
  rw [hr] at ha hb
  obtain ⟨h1, hc1, hcv1, hlen1, hreg1, _, _⟩ :=
    create_absent cm a t1 h i hr hi (mapIndex_of_get_none _ _ ha)
  have hi1 : i < h1.maps.length := by omega
  have hgb : mapGet (h1.mapAt (some i)) b = none := by
    rw [hreg1, mapGet_mapSet_ne _ a b _ (fun hc => hab hc.symm)]
    exact hb
  obtain ⟨h2, hc2, hcv2, hlen2, hreg2, _, _⟩ :=
    create_absent cm b t2 h1 i hr hi1 (mapIndex_of_get_none _ _ hgb)
  have hsa1 := convAt_new h1 h.convs _ hcv1
  have hsa2 := convAt_of_convs_append h1 h2 _ h.convs.length _ hcv2 hsa1
  have hsb2 := convAt_new h2 h1.convs _ hcv2
  have hcl : h1.convs.length = h.convs.length + 1 := by simp [hcv1]
  have hregA : mapGet (cm.registry h2) a = some (Value.conv (some h.convs.length)) := by
    unfold ConversationManager.registry
    rw [hr, hreg2, mapGet_mapSet_ne _ b a _ hab, hreg1]
    exact mapGet_mapSet_self _ _ _
  have hregB : mapGet (cm.registry h2) b = some (Value.conv (some h1.convs.length)) := by
    unfold ConversationManager.registry
    rw [hr, hreg2]
    exact mapGet_mapSet_self _ _ _
  have hne1 : (some i : Option Nat) ≠ some h.maps.length := fun hc => by
    have := Option.some.inj hc
    omega
  have hne2 : (some i : Option Nat) ≠ some h1.maps.length := fun hc => by
    have := Option.some.inj hc
    omega
  have hne3 : (some h1.maps.length : Option Nat) ≠ some h.maps.length := fun hc => by
    have := Option.some.inj hc
    omega
  refine ⟨h.convs.length, h1.convs.length, h1, h2, hc1, hc2, by omega, hregA, hregB, ?_, ?_⟩
  · obtain ⟨h3, hset, hcv3, _, hm3, hoth3⟩ :=
      set_frame (some h.convs.length) _ k v h2 h.maps.length hsa2 rfl (by omega)
    refine ⟨h3, hset, ?_, ?_, ?_⟩
    · have hsa3 := (convAt_congr h2 h3 (some h.convs.length) hcv3).trans hsa2
      rw [get_eq _ _ k h3 hsa3]
      show some (mapIndex (h3.mapAt (some h.maps.length)) k, none) = _
      rw [hm3, mapIndex_of_get_some _ k v (mapGet_mapSet_self _ k v)]
    · intro k1
      exact get_congr _ _ k1 h2 h3 hsb2 hcv3 (hoth3 _ hne3)
    · unfold ConversationManager.registry
      rw [hr]
      exact hoth3 _ hne1
  · obtain ⟨h3, hset, hcv3, _, hm3, hoth3⟩ :=
      set_frame (some h1.convs.length) _ k v h2 h1.maps.length hsb2 rfl (by omega)
    refine ⟨h3, hset, ?_, ?_, ?_⟩
    · have hsb3 := (convAt_congr h2 h3 (some h1.convs.length) hcv3).trans hsb2
      rw [get_eq _ _ k h3 hsb3]
      show some (mapIndex (h3.mapAt (some h1.maps.length)) k, none) = _
      rw [hm3, mapIndex_of_get_some _ k v (mapGet_mapSet_self _ k v)]
    · intro k1
      exact get_congr _ _ k1 h2 h3 hsa2 hcv3 (hoth3 _ (fun hc => hne3 hc.symm))
    · unfold ConversationManager.registry
      rw [hr]
      exact hoth3 _ hne2

/-- Witness for C17: sessions "a" and "b" created on an empty registry; the
attribute set on one is not seen on the other. -/
theorem session_stores_isolated_witness :
    (Heap.mk [[]] []).Allocated
      (ConversationManager.mk "goodsCool" 1800 (MemStorage.mk (some 0))).Storage.DataStorage ∧
    "a" ≠ "b" ∧
    ∃ pa pb h1 h2 h3,
      (ConversationManager.mk "goodsCool" 1800 (MemStorage.mk (some 0))).Create "a" 1
        (Heap.mk [[]] []) = some ((some pa, none), h1) ∧
      (ConversationManager.mk "goodsCool" 1800 (MemStorage.mk (some 0))).Create "b" 2 h1 =
        some ((some pb, none), h2) ∧
      Conversation.Set (some pa) "user" (Value.str "bob") h2 = some ((true, none), h3) ∧
      Conversation.Get (some pa) "user" h3 = some (Value.str "bob", none) ∧
      Conversation.Get (some pb) "user" h3 = Conversation.Get (some pb) "user" h2 := by
  obtain ⟨pa, pb, h1, h2, hc1, hc2, _, _, _, ⟨h3, hset, hget, hother, _⟩, _⟩ :=
    session_stores_isolated (ConversationManager.mk "goodsCool" 1800 (MemStorage.mk (some 0)))
      "a" "b" 1 2 "user" (Value.str "bob") (Heap.mk [[]] []) ⟨0, rfl, by decide⟩ (by decide)
      rfl rfl
  exact ⟨⟨0, rfl, by decide⟩, by decide, pa, pb, h1, h2, h3, hc1, hc2, hset, hget,
    hother "user"⟩

/-- C18: registry invariant.  Start from a heap in which the registry map is
allocated and empty and no session exists.  After any finite sequence of
`Create`, `Destroy`, `GetConversation`, `GC` scan passes, `ManagerNormalRequest`
calls and session `Get`/`Set` calls that have returned, every entry of the
registry maps its key `id` to a non-nil pointer to an allocated session whose
`Cid` equals `id`; hence `Create` and `GetConversation` do not panic for any
identifier, no two identifiers map to the same session, and every further call
(a `Get` or `Set` being made through a pointer to an allocated session)
returns. -/
theorem registry_invariant (cm : ConversationManager) (h0 : Heap)
    (halloc : h0.Allocated cm.Storage.DataStorage) (hempty : cm.registry h0 = [])
    (hnone : h0.convs = []) (ops : List Op) (h : Heap) (hrun : cm.run ops h0 = some h) :
    (∀ e ∈ cm.registry h, ∃ a s, e.2 = Value.conv (some a) ∧ h.convAt (some a) = some s ∧
      s.Cid = e.1) ∧
    (∀ id v, mapGet (cm.registry h) id = some v →
      ∃ a s, v = Value.conv (some a) ∧ h.convAt (some a) = some s ∧ s.Cid = id) ∧
    (∀ id now, ∃ p h1, cm.Create id now h = some ((p, none), h1)) ∧
    (∀ id, ∃ p, cm.GetConversation id h = some (p, h)) ∧
    (∀ id1 id2 p, mapGet (cm.registry h) id1 = some (Value.conv p) →
      mapGet (cm.registry h) id2 = some (Value.conv p) → id1 = id2) ∧
    (∀ op : Op, op.onSession h → ∃ h1, cm.step op h = some h1) := by
  have hinv : cm.Inv h :=
    run_inv cm ops h0 h (inv_of_empty cm h0 halloc hempty hnone) hrun
  have hreg : cm.RegistryInv h := hinv.2.2.1
  have hlook : ∀ id v, mapGet (cm.registry h) id = some v →
      ∃ a s, v = Value.conv (some a) ∧ h.convAt (some a) = some s ∧ s.Cid = id :=
    fun id v hget => hreg (id, v) (mem_of_mapGet _ _ _ hget)
  refine ⟨hreg, hlook, ?_, fun id => getConversation_inv cm id h hreg, ?_,
    fun op => (step_inv cm op h hinv).2⟩
  · intro id now
    obtain ⟨a, _, h1, hc, _⟩ := create_inv cm id now h hinv
    exact ⟨some a, h1, hc⟩
  · intro id1 id2 p h1 h2
    obtain ⟨a1, s1, hv1, hs1, hc1⟩ := hlook id1 _ h1
    obtain ⟨a2, s2, hv2, hs2, hc2⟩ := hlook id2 _ h2
    have ha : a1 = a2 := by
      have hp1 : p = some a1 := by injection hv1
      have hp2 : p = some a2 := by injection hv2
      exact Option.some.inj (hp1.symm.trans hp2)
    subst ha
    have hs : s1 = s2 := Option.some.inj (hs1.symm.trans hs2)
    rw [← hc1, ← hc2, hs]

/-- Witness for C18: from the initial heap, `Create("a")`, a request without
cookies that creates "u1", `Set("user", "bob")` on the session of "a", and
`Destroy("a")`; the registry then holds exactly "u1". -/
theorem registry_invariant_witness :
    (Heap.mk [[]] []).Allocated
      (ConversationManager.mk "goodsCool" 1800 (MemStorage.mk (some 0))).Storage.DataStorage ∧
    (ConversationManager.mk "goodsCool" 1800 (MemStorage.mk (some 0))).registry
      (Heap.mk [[]] []) = [] ∧
    (ConversationManager.mk "goodsCool" 1800 (MemStorage.mk (some 0))).run
      [Op.create "a" 1, Op.managerNormalRequest (Request.mk []) ("u1", none) 2 3,
        Op.set (some 0) "user" (Value.str "bob"), Op.destroy "a"] (Heap.mk [[]] []) =
      some (Heap.mk [[("u1", Value.conv (some 1))], [("user", Value.str "bob")], []]
        [Conversation.mk 1 "a" (MemStorage.mk (some 1)) 1800,
          Conversation.mk 3 "u1" (MemStorage.mk (some 2)) 1800]) ∧
    ∀ id v, mapGet ((ConversationManager.mk "goodsCool" 1800 (MemStorage.mk (some 0))).registry
        (Heap.mk [[("u1", Value.conv (some 1))], [("user", Value.str "bob")], []]
          [Conversation.mk 1 "a" (MemStorage.mk (some 1)) 1800,
            Conversation.mk 3 "u1" (MemStorage.mk (some 2)) 1800])) id = some v →
      ∃ a s, v = Value.conv (some a) ∧
        (Heap.mk [[("u1", Value.conv (some 1))], [("user", Value.str "bob")], []]
          [Conversation.mk 1 "a" (MemStorage.mk (some 1)) 1800,
            Conversation.mk 3 "u1" (MemStorage.mk (some 2)) 1800]).convAt (some a) = some s ∧
        s.Cid = id :=
  ⟨⟨0, rfl, by decide⟩, rfl, by decide,
    (registry_invariant (ConversationManager.mk "goodsCool" 1800 (MemStorage.mk (some 0)))
      (Heap.mk [[]] []) ⟨0, rfl, by decide⟩ rfl rfl
      [Op.create "a" 1, Op.managerNormalRequest (Request.mk []) ("u1", none) 2 3,
        Op.set (some 0) "user" (Value.str "bob"), Op.destroy "a"]
      (Heap.mk [[("u1", Value.conv (some 1))], [("user", Value.str "bob")], []]
        [Conversation.mk 1 "a" (MemStorage.mk (some 1)) 1800,
          Conversation.mk 3 "u1" (MemStorage.mk (some 2)) 1800]) (by decide)).2.1⟩

end Session
